import Mathlib

/-!
Verification development for the PlanNUS study-plan engine.

The definitions below are a shallow embedding of the plan-editing and
validation logic of `src/frontend/components/MainBoard.tsx` (state shapes
from `src/frontend/types.ts`).  Machine numbers are modelled as `Nat`/`Int`;
JavaScript `x || 4` defaulting is modelled explicitly; JavaScript `Map` and
`Set` are modelled as association lists and deduplicated lists.  The backend
prerequisite evaluator (reached through `checkPrerequisites` in
`src/frontend/api.ts`) is not part of the sources; where a claim needs it,
it is modelled from the spec and marked as such.
-/

namespace PlanNUS

/-- `Module` from `src/frontend/types.ts` (display-only fields
`hasError`/`errorMessage` omitted; they are never read by the logic
embedded here). `units` is optional in the source (`units?: number`). -/
structure Module where
  code : String
  title : String
  units : Option Nat
  fluff : Bool
deriving Repr, DecidableEq

/-- JavaScript `mod.units || 4` (MainBoard.tsx:210,506): both a missing and a
zero credit value default to 4. -/
def Module.credit (m : Module) : Nat :=
  match m.units with
  | none => 4
  | some 0 => 4
  | some u => u

/-- `Semester` from `src/frontend/types.ts` (drag-state fields omitted). -/
structure Semester where
  id : Nat
  name : String
  units : Nat
  modules : List Module
  isExchange : Bool
deriving Repr, DecidableEq

/-- `AcademicYear` from `src/frontend/types.ts` (label strings omitted). -/
structure AcademicYear where
  year : Nat
  semesters : List Semester
deriving Repr, DecidableEq

/-- The `type` field of `StagedModule` (MainBoard.tsx:6-11). -/
inductive StagedType where
  | taken
  | exempted
deriving Repr, DecidableEq

/-- `StagedModule` from MainBoard.tsx:6-11: the staging area holds the
exempted courses. -/
structure StagedModule where
  id : String
  code : String
  type : StagedType
  mcs : Nat
deriving Repr, DecidableEq

/-- JavaScript `mod.mcs || 4` (MainBoard.tsx:494). -/
def StagedModule.credit (m : StagedModule) : Nat :=
  if m.mcs = 0 then 4 else m.mcs

/-- JavaScript `sem.name.includes('1') ? 1 : 2`, the semester-number
computation used by `allTakenModules` (line 409), `checkAllConstraints`
(lines 434-441) and `progressionStats` (line 502).  Note that it also
assigns a number to special terms: "Special Term 1" contains '1'. -/
def semNumOf (s : Semester) : Nat :=
  if s.name.data.contains '1' then 1 else 2

/-- JavaScript `a.startsWith(b)`, implemented on the character lists so that
it evaluates by structural recursion. -/
def strStarts (s pre : String) : Bool :=
  pre.data.isPrefixOf s.data

/-- JavaScript `a.endsWith(b)`. -/
def strEnds (s suf : String) : Bool :=
  suf.data.isSuffixOf s.data

/-- JavaScript `s.slice(0, -1)`: drop the last character. -/
def strDropLast (s : String) : String :=
  String.mk s.data.dropLast

/-- Split a character list at every occurrence of `c`. -/
def splitCh (c : Char) : List Char → List (List Char)
  | [] => [[]]
  | x :: xs =>
    if x == c then [] :: splitCh c xs
    else
      match splitCh c xs with
      | g :: gs => (x :: g) :: gs
      | [] => [[x]]

/-- JavaScript `s.split(' ')`. -/
def splitSpace (s : String) : List String :=
  (splitCh ' ' s.data).map String.mk

/-- JavaScript `parseInt` restricted to the usage here: parse the leading
run of decimal digits, `none` (NaN) when there is none. -/
def parseIntJS (s : String) : Option Nat :=
  let ds := s.data.takeWhile (·.isDigit)
  if ds.isEmpty then none
  else some (ds.foldl (fun n c => n * 10 + (c.toNat - 48)) 0)

/-- `order = year*10 + semesterNumber` as computed throughout MainBoard. -/
def semOrder (yearNum : Nat) (s : Semester) : Nat :=
  yearNum * 10 + semNumOf s

/-- All course codes placed anywhere in the plan, in traversal order. -/
def planCodes (years : List AcademicYear) : List String :=
  years.flatMap fun y => y.semesters.flatMap fun s => s.modules.map (·.code)

/-- All codes of Plan ∪ Staged, used to state the uniqueness invariant. -/
def allCodes (years : List AcademicYear) (staged : List StagedModule) : List String :=
  planCodes years ++ staged.map (·.code)

/-- True ASCII upper-case letter test, matching the `[A-Z]` character class. -/
def isUpperAZ (c : Char) : Bool :=
  'A' ≤ c && c ≤ 'Z'

/-- One backtracking step of the anchored regex `^([A-Z]{2,4}\d{4})`:
try exactly `k` leading letters followed by 4 digits. -/
def tryBase (cs : List Char) (k : Nat) : Option (List Char) :=
  let pre := cs.take k
  let digs := (cs.drop k).take 4
  if pre.length = k && pre.all isUpperAZ && digs.length = 4 && digs.all (·.isDigit) then
    some (pre ++ digs)
  else none

/-- `getBaseCode` (MainBoard.tsx:533-536): `code.match(/^([A-Z]{2,4}\d{4})/)`,
returning the matched base or the whole code when there is no match.  The
greedy quantifier `{2,4}` tries 4 letters first, then 3, then 2. -/
def getBaseCode (code : String) : String :=
  match tryBase code.data 4 with
  | some cs => String.mk cs
  | none =>
    match tryBase code.data 3 with
    | some cs => String.mk cs
    | none =>
      match tryBase code.data 2 with
      | some cs => String.mk cs
      | none => code

/-- One entry of the `REQUIREMENTS` constant (MainBoard.tsx:15-82). -/
structure ReqCourse where
  code : String
  title : String
deriving Repr, DecidableEq

/-- One category of the `REQUIREMENTS` constant. -/
structure ReqCategory where
  category : String
  requiredUnits : Nat
  courses : List ReqCourse
deriving Repr, DecidableEq

/-- The `REQUIREMENTS` mock data (MainBoard.tsx:15-82), transcribed. -/
def REQUIREMENTS : List ReqCategory :=
  [ { category := "Common Curriculum", requiredUnits := 40,
      courses :=
        [ ⟨"CS1101S", "Digital Literacy"⟩,
          ⟨"ES2660", "Critique and Expression"⟩,
          ⟨"GEC%", "Cultures and Connections"⟩,
          ⟨"GEA1000", "Data Literacy"⟩,
          ⟨"GES%", "Singapore Studies"⟩,
          ⟨"GEN%", "Communities and Engagement"⟩ ] },
    { category := "Computer Science Foundation", requiredUnits := 36,
      courses :=
        [ ⟨"CS1231S", "Discrete Structures"⟩,
          ⟨"CS2030S", "Programming Methodology II"⟩,
          ⟨"CS2040S", "Data Structures & Algos"⟩,
          ⟨"CS2100", "Computer Organisation"⟩,
          ⟨"CS2106", "Operating Systems"⟩,
          ⟨"CS3230", "Design & Analysis of Algorithms"⟩ ] },
    { category := "CS Breadth & Depth", requiredUnits := 32,
      courses :=
        [ ⟨"Focus 4K", "Focus Area 4000-level (required)"⟩,
          ⟨"Focus 2", "Focus Area Course 2"⟩,
          ⟨"Focus 3", "Focus Area Course 3"⟩,
          ⟨"CS4%", "4K Elective 1"⟩,
          ⟨"CS4%", "4K Elective 2"⟩,
          ⟨"CS4%", "4K Elective 3"⟩,
          ⟨"IE/FYP", "Industry Exp. or FYP (self-check)"⟩,
          ⟨"Project", "Team Project / Elective"⟩ ] },
    { category := "Math & Sciences", requiredUnits := 12,
      courses :=
        [ ⟨"MA1521", "Calculus for Computing"⟩,
          ⟨"MA1522", "Linear Algebra"⟩,
          ⟨"ST2334", "Probability & Statistics"⟩ ] },
    { category := "Unrestricted Electives", requiredUnits := 40,
      courses :=
        [ ⟨"UE 1", "General Elective"⟩, ⟨"UE 2", "General Elective"⟩,
          ⟨"UE 3", "General Elective"⟩, ⟨"UE 4", "General Elective"⟩,
          ⟨"UE 5", "General Elective"⟩, ⟨"UE 6", "General Elective"⟩,
          ⟨"UE 7", "General Elective"⟩, ⟨"UE 8", "General Elective"⟩,
          ⟨"UE 9", "General Elective"⟩, ⟨"UE 10", "General Elective"⟩ ] } ]

/-- `allTakenModules` (MainBoard.tsx:401-418): the JavaScript `Set` of codes
in strictly-past regular-order semesters plus every staged code.  The `Set`
is modelled by deduplicating the collected list; membership and cardinality
agree with the source `Set`. -/
def allTakenModules (years : List AcademicYear) (staged : List StagedModule)
    (curY curS : Nat) : List String :=
  let currentSemId := curY * 10 + curS
  ((years.flatMap fun y => y.semesters.flatMap fun s =>
      if semOrder y.year s < currentSemId then s.modules.map (·.code) else [])
    ++ staged.map (·.code)).dedup

/-- The body of the `consumed` computation in `checkRequirement`
(MainBoard.tsx:558-577): a taken code is consumed when it matches a slot of
any category other than "Unrestricted Electives", by base-code equality or
wildcard prefix. -/
def consumedBy (reqs : List ReqCategory) (myCode : String) : Bool :=
  reqs.any fun cat =>
    cat.category ≠ "Unrestricted Electives" &&
    cat.courses.any fun c =>
      getBaseCode myCode == getBaseCode c.code ||
      (strEnds c.code "%" && strStarts myCode (strDropLast c.code))

/-- The unconsumed taken codes (MainBoard.tsx:580). `taken` is already
deduplicated (it is a `Set` in the source). -/
def ueUnconsumed (reqs : List ReqCategory) (taken : List String) : List String :=
  taken.filter fun c => !(consumedBy reqs c)

/-- `checkRequirement` (MainBoard.tsx:531-587), with the `REQUIREMENTS`
constant and the `allTakenModules` set passed explicitly: 1. fuzzy direct
match by base code; 2. wildcard prefix match; 3. unrestricted-elective
overflow by index (`parseInt(reqCode.split(' ')[1]) - 1`, an `Int` since
JavaScript subtraction can go to -1); otherwise unfulfilled. -/
def checkRequirement (reqs : List ReqCategory) (taken : List String)
    (reqCode : String) : Bool :=
  let reqBase := getBaseCode reqCode
  if taken.any fun t => getBaseCode t == reqBase then true
  else if strEnds reqCode "%" then
    taken.any fun c => strStarts c (strDropLast reqCode)
  else if strStarts reqCode "UE" then
    match parseIntJS ((splitSpace reqCode).getD 1 "") with
    | some n => ((n : Int) - 1) < ((ueUnconsumed reqs taken).length : Int)
    | none => false
  else false

/-- The three credit buckets of `progressionStats` (MainBoard.tsx:483-521). -/
structure Stats where
  completed : Nat
  current : Nat
  planned : Nat
deriving Repr, DecidableEq

/-- `completed + current + planned`, the `total` field of the snapshot. -/
def Stats.total (s : Stats) : Nat :=
  s.completed + s.current + s.planned

/-- Step 1 of `progressionStats` (MainBoard.tsx:492-497): staged modules of
type `exempted` whose code is not yet seen are counted as completed.  The
accumulator carries the `allCodes` seen-set as a list. -/
def statsAddStaged : List StagedModule → List String × Stats → List String × Stats
  | [], acc => acc
  | m :: ms, (seen, st) =>
    if m.type == .exempted && !(seen.contains m.code) then
      statsAddStaged ms (m.code :: seen, { st with completed := st.completed + m.credit })
    else
      statsAddStaged ms (seen, st)

/-- The three-way bucket comparison of MainBoard.tsx:507-513. -/
def bucketAdd (st : Stats) (semId currentSemId mcs : Nat) : Stats :=
  if semId < currentSemId then { st with completed := st.completed + mcs }
  else if semId = currentSemId then { st with current := st.current + mcs }
  else { st with planned := st.planned + mcs }

/-- Step 2, inner loop over one semester's modules (MainBoard.tsx:504-516). -/
def statsAddModules (semId currentSemId : Nat) :
    List Module → List String × Stats → List String × Stats
  | [], acc => acc
  | m :: ms, (seen, st) =>
    if seen.contains m.code then
      statsAddModules semId currentSemId ms (seen, st)
    else
      statsAddModules semId currentSemId ms
        (m.code :: seen, bucketAdd st semId currentSemId m.credit)

/-- Step 2, loop over one year's semesters (MainBoard.tsx:501-517). -/
def statsAddSems (yearNum currentSemId : Nat) :
    List Semester → List String × Stats → List String × Stats
  | [], acc => acc
  | s :: ss, acc =>
    statsAddSems yearNum currentSemId ss
      (statsAddModules (semOrder yearNum s) currentSemId s.modules acc)

/-- Step 2, loop over the academic years (MainBoard.tsx:500-518). -/
def statsAddYears (currentSemId : Nat) :
    List AcademicYear → List String × Stats → List String × Stats
  | [], acc => acc
  | y :: ys, acc =>
    statsAddYears currentSemId ys (statsAddSems y.year currentSemId y.semesters acc)

/-- `progressionStats` (MainBoard.tsx:483-521): exempted staged modules are
always completed; each plan module (first occurrence of its code) is
bucketed by comparing its semester order with
`currentSemId = currentYearNum*10 + currentSemNum`. -/
def progressionStats (years : List AcademicYear) (staged : List StagedModule)
    (curY curS : Nat) : Stats :=
  (statsAddYears (curY * 10 + curS) years (statsAddStaged staged ([], ⟨0, 0, 0⟩))).2

/-- Scan for the first occurrence of the pattern `Y<digit>S<digit>`, the
regex `/Y(\d)S(\d)/` of MainBoard.tsx:132. -/
def findYS : List Char → Option (Nat × Nat)
  | c1 :: c2 :: c3 :: c4 :: rest =>
    if c1 == 'Y' && c2.isDigit && c3 == 'S' && c4.isDigit then
      some (c2.toNat - 48, c4.toNat - 48)
    else
      findYS (c2 :: c3 :: c4 :: rest)
  | _ => none

/-- The `currentYearNum`/`currentSemNum` parser (MainBoard.tsx:126-137):
the sentinel `"Y0S0"` (incoming freshman) maps to `(0, 0)`, a parsed
`Y<d>S<d>` to its digits, anything else to the default `(1, 1)`. -/
def parseCurrentSemester (s : String) : Nat × Nat :=
  if s == "Y0S0" then (0, 0)
  else
    match findYS s.data with
    | some p => p
    | none => (1, 1)

/-- The result shape of the backend `check-prereqs` endpoint as consumed by
the frontend (`PrereqCheckResult` in `src/frontend/api.ts`). -/
structure PrereqResult where
  satisfied : Bool
  missing : List String
deriving Repr, DecidableEq

/-- A prerequisite oracle: `none` models a failed lookup (network error,
non-OK response — the `catch (e) { /* Ignore */ }` path of
MainBoard.tsx:461). -/
abbrev PrereqOracle := String → List String → Option PrereqResult

/-- An offering oracle: `none` models a failed lookup
(MainBoard.tsx:469). -/
abbrev OfferOracle := String → Nat → Option Bool

/-- JavaScript `Map.set`: replace in place when the key exists, else
append. -/
def mapSet {α : Type} : List (String × α) → String → α → List (String × α)
  | [], k, v => [(k, v)]
  | (k', v') :: rest, k, v =>
    if k' == k then (k, v) :: rest else (k', v') :: mapSet rest k v

/-- JavaScript `Map.get` (`none` for an absent key). -/
def mapGet {α : Type} (m : List (String × α)) (k : String) : Option α :=
  (m.find? fun p => p.1 == k).map (·.2)

/-- The `completedBefore` set built for a semester of order `o`
(MainBoard.tsx:437-448): codes of every semester of strictly smaller
computed order, plus every staged code. -/
def completedBefore (years : List AcademicYear) (staged : List StagedModule)
    (o : Nat) : List String :=
  (years.flatMap fun y => y.semesters.flatMap fun s =>
    if semOrder y.year s < o then s.modules.map (·.code) else [])
  ++ staged.map (·.code)

/-- The two violation maps accumulated by `checkAllConstraints`. -/
abbrev Violations := List (String × List String) × List (String × String)

/-- The per-module body of `checkAllConstraints` (MainBoard.tsx:451-470):
fluff modules are skipped entirely; otherwise a prerequisite violation is
recorded when the (successful) lookup is unsatisfied with a non-empty
missing list, and an offering violation when the (successful) lookup says
not offered. -/
def checkSemModules (pO : PrereqOracle) (oO : OfferOracle)
    (cb : List String) (semNum : Nat) : List Module → Violations → Violations
  | [], acc => acc
  | m :: ms, (pV, oV) =>
    if m.fluff then
      checkSemModules pO oO cb semNum ms (pV, oV)
    else
      let pV' :=
        match pO m.code cb with
        | some r =>
          if !r.satisfied && decide (0 < r.missing.length) then
            mapSet pV m.code r.missing
          else pV
        | none => pV
      let oV' :=
        match oO m.code semNum with
        | some offered =>
          if !offered then
            mapSet oV m.code ("Not offered in Semester " ++ toString semNum)
          else oV
        | none => oV
      checkSemModules pO oO cb semNum ms (pV', oV')

/-- The semester loop of `checkAllConstraints` (MainBoard.tsx:432-471). -/
def checkSems (pO : PrereqOracle) (oO : OfferOracle)
    (years : List AcademicYear) (staged : List StagedModule) (yearNum : Nat) :
    List Semester → Violations → Violations
  | [], acc => acc
  | s :: ss, acc =>
    checkSems pO oO years staged yearNum ss
      (checkSemModules pO oO (completedBefore years staged (semOrder yearNum s))
        (semNumOf s) s.modules acc)

/-- The year loop of `checkAllConstraints` (MainBoard.tsx:430-472). -/
def checkYears (pO : PrereqOracle) (oO : OfferOracle)
    (years : List AcademicYear) (staged : List StagedModule) :
    List AcademicYear → Violations → Violations
  | [], acc => acc
  | y :: ys, acc =>
    checkYears pO oO years staged ys (checkSems pO oO years staged y.year y.semesters acc)

/-- `checkAllConstraints` (MainBoard.tsx:425-481), parameterised over the
two backend oracles; returns the prerequisite- and offering-violation
maps. -/
def checkAllConstraints (years : List AcademicYear) (staged : List StagedModule)
    (pO : PrereqOracle) (oO : OfferOracle) : Violations :=
  checkYears pO oO years staged years ([], [])

/-- The `source` of a drag operation (MainBoard.tsx:590). -/
inductive DragSource where
  | staged
  | semester
deriving Repr, DecidableEq

/-- The `draggingModule` state (MainBoard.tsx:590). -/
structure DragState where
  code : String
  source : DragSource
  sourceId : Option Nat
deriving Repr, DecidableEq

/-- The observable outcome of a drop, with the toast message on
rejection. -/
inductive DropResult where
  | reordered
  | rejectedDuplicate (message : String)
  | applied
deriving Repr, DecidableEq

/-- JavaScript `l.splice(i, 0, x)`: insert at `i`, clamped to the list
length. -/
def spliceInsert {α : Type} (i : Nat) (x : α) (l : List α) : List α :=
  l.take i ++ x :: l.drop i

/-- The same-semester reorder of MainBoard.tsx:655-664: find the dragged
module, remove it, reinsert at the (adjusted) index. -/
def reorderModules (code : String) (insertAtIndex : Nat) (l : List Module) :
    List Module :=
  match l.findIdx? (fun m => m.code == code) with
  | none => l
  | some ci =>
    if ci = insertAtIndex then l
    else
      match l.get? ci with
      | none => l
      | some moved =>
        let adjusted := if ci < insertAtIndex then insertAtIndex - 1 else insertAtIndex
        spliceInsert adjusted moved (l.eraseIdx ci)

/-- `handleDrop` (MainBoard.tsx:642-760) restricted to the plan state it
mutates: reorder within the source semester; otherwise reject when the code
already exists in a plan semester other than the source (only checked when
the target semester exists, as in the source); otherwise remove from the
source (semester or staging) and insert into the target.  `units`
bookkeeping uses truncated `Nat` subtraction; no claim reads it. -/
def handleDrop (years : List AcademicYear) (staged : List StagedModule)
    (drag : DragState) (targetSemId : Nat) (insertAtIndex : Option Nat) :
    List AcademicYear × List StagedModule × DropResult :=
  let code := drag.code
  if drag.source == .semester && drag.sourceId == some targetSemId then
    match insertAtIndex with
    | some idx =>
      (years.map fun y =>
        { y with semesters := y.semesters.map fun s =>
            if s.id == targetSemId then
              { s with modules := reorderModules code idx s.modules }
            else s },
       staged, .reordered)
    | none => (years, staged, .reordered)
  else
    let targetExists := years.any fun y => y.semesters.any fun s => s.id == targetSemId
    let moduleExistsInPlan := years.any fun y => y.semesters.any fun s =>
      if drag.source == .semester && drag.sourceId == some s.id then false
      else s.modules.any fun m => m.code == code
    if targetExists && moduleExistsInPlan then
      (years, staged, .rejectedDuplicate (code ++ " already exists in your study plan"))
    else
      let years' := years.map fun y =>
        { y with semesters := y.semesters.map fun s =>
            if drag.source == .semester && drag.sourceId == some s.id then
              { s with modules := s.modules.filter (fun m => !(m.code == code)),
                       units := s.units - 4 }
            else if s.id == targetSemId then
              if s.modules.any (fun m => m.code == code) then s
              else
                let newModule : Module :=
                  { code := code, title := code, units := some 4, fluff := false }
                { s with
                    modules :=
                      match insertAtIndex with
                      | some idx => spliceInsert idx newModule s.modules
                      | none => s.modules ++ [newModule],
                    units := s.units + 4 }
            else s }
      let staged' :=
        if drag.source == .staged then staged.filter (fun m => !(m.code == code))
        else staged
      (years', staged', .applied)

/-- The exempted-course addition of MainBoard.tsx:1850-1866: the selected
search result is appended to the staged list with no duplicate check of any
kind. -/
def addExemptedCourse (staged : List StagedModule) (idStr code : String)
    (credits : Nat) : List StagedModule :=
  staged ++ [{ id := idStr, code := code, type := .exempted, mcs := credits }]

/-- The search-based module addition `handleModuleSelect`
(MainBoard.tsx:1502-1521): append to the target semester unless that
semester already holds the code.  (The search results offered to the user
were filtered against the whole plan at MainBoard.tsx:1489-1492; the
staged/exempted set is never consulted.) -/
def handleModuleSelect (years : List AcademicYear) (semId : Nat)
    (moduleCode title : String) : List AcademicYear :=
  years.map fun y =>
    { y with semesters := y.semesters.map fun s =>
        if s.id == semId then
          if s.modules.any fun m => m.code == moduleCode then s
          else
            { s with
                modules := s.modules ++ [{ code := moduleCode, title := title,
                                           units := some 4, fluff := false }],
                units := s.units + 4 }
        else s }

/-- Modelled from the spec: the backend prerequisite evaluator behind
`POST /modules/check-prereqs` is not under `src/`; the spec (§3, §4.1,
§4.3) describes a `PrerequisiteTree` of `Leaf`/`All`/`Any` nodes evaluated
against a set of available codes. -/
inductive PrereqTree where
  | leaf (code : String)
  | allOf (children : List PrereqTree)
  | anyOf (children : List PrereqTree)
deriving Repr

mutual
/-- Modelled from the spec: satisfiability of a `PrerequisiteTree` against a
set of available codes (spec §3: "Satisfiability is evaluated against a set
of 'available' course codes"). -/
def satTree (avail : List String) : PrereqTree → Bool
  | .leaf c => avail.contains c
  | .allOf ts => satAll avail ts
  | .anyOf ts => satAnyOf avail ts

/-- All children satisfied. -/
def satAll (avail : List String) : List PrereqTree → Bool
  | [] => true
  | t :: ts => satTree avail t && satAll avail ts

/-- Some child satisfied. -/
def satAnyOf (avail : List String) : List PrereqTree → Bool
  | [] => false
  | t :: ts => satTree avail t || satAnyOf avail ts
end

mutual
/-- Modelled from the spec: the missing leaf codes of an unsatisfied tree
(spec §4.3: "Unsatisfied ⇒ record the minimal missing leaf codes").  A
satisfied subtree contributes nothing. -/
def missingTree (avail : List String) : PrereqTree → List String
  | .leaf c => if avail.contains c then [] else [c]
  | .allOf ts => missingAll avail ts
  | .anyOf ts => if satAnyOf avail ts then [] else missingAll avail ts

/-- Concatenated missing leaves of a list of children. -/
def missingAll (avail : List String) : List PrereqTree → List String
  | [] => []
  | t :: ts => missingTree avail t ++ missingAll avail ts
end

/-- Modelled from the spec: the backend catalog, a partial map from course
code to prerequisite tree (spec §6: `getCourse(code)`; absent rule ⇒
trivially satisfied, spec §4.1). -/
abbrev Catalog := String → Option PrereqTree

/-- Modelled from the spec: the prerequisite oracle induced by a catalog.
A code without a catalog rule is trivially satisfied (spec §4.1); a code
with a rule is evaluated against the supplied available set. -/
def specPrereqOracle (cat : Catalog) : PrereqOracle := fun code avail =>
  match cat code with
  | none => some { satisfied := true, missing := [] }
  | some t =>
    some { satisfied := satTree avail t,
           missing := if satTree avail t then [] else missingTree avail t }

/-! ### The debounced re-validation loop (C10)

`useEffect` at MainBoard.tsx:425-481: every plan mutation re-runs the
effect, whose cleanup clears the still-pending debounce timer and whose
body schedules a new one capturing the new plan; a fired timer starts the
async `checkAllConstraints`, whose completion publishes its result with
`setPrereqViolations`/`setOfferingViolations` unconditionally.  The plan
content is abstracted to a type `P`; `published` records the snapshot the
result was computed from together with the plan current at publish time. -/

/-- The state of the debounced validation loop. -/
structure ValidState (P : Type) where
  plan : P
  pending : Option P
  inflight : List P
  published : Option (P × P)
deriving Repr, DecidableEq

/-- One step of the validation loop, transcribed from the effect structure
of MainBoard.tsx:425-481. -/
inductive ValidStep (P : Type) [DecidableEq P] : ValidState P → ValidState P → Prop
  | mutate (σ : ValidState P) (p' : P) :
      ValidStep P σ { plan := p', pending := some p', inflight := σ.inflight,
                      published := σ.published }
  | fire (σ : ValidState P) (s : P) (h : σ.pending = some s) :
      ValidStep P σ { σ with pending := none, inflight := s :: σ.inflight }
  | complete (σ : ValidState P) (s : P) (h : s ∈ σ.inflight) :
      ValidStep P σ { σ with inflight := σ.inflight.erase s,
                             published := some (s, σ.plan) }

/-- The initial state on mount with plan `p0`: the effect has run once and
scheduled a timer capturing `p0`. -/
def validInit {P : Type} (p0 : P) : ValidState P :=
  { plan := p0, pending := some p0, inflight := [], published := none }

/-- Reachability in the validation loop. -/
def ValidReachable (P : Type) [DecidableEq P] (p0 : P) : ValidState P → Prop :=
  Relation.ReflTransGen (ValidStep P) (validInit p0)

/-! ### Specification-side definitions

These phrase the properties of the claims independently of the control flow
of the implementation, for comparison with the embedded functions above. -/

/-- Total credits of the modules of one semester. -/
def semCredits (s : Semester) : Nat :=
  (s.modules.map Module.credit).sum

/-- Credits of one year's semesters whose order satisfies `p`. -/
def semsCreditIf (yearNum : Nat) (ss : List Semester) (p : Nat → Bool) : Nat :=
  (ss.map fun s => if p (semOrder yearNum s) then semCredits s else 0).sum

/-- Credits of all plan semesters whose order satisfies `p`. -/
def planCreditIf (years : List AcademicYear) (p : Nat → Bool) : Nat :=
  (years.map fun y => semsCreditIf y.year y.semesters p).sum

/-- Total credits of the exempted staged modules. -/
def exemptedCredits (staged : List StagedModule) : Nat :=
  ((staged.filter fun m => m.type == .exempted).map StagedModule.credit).sum

/-- The claim-side progress snapshot: every exempted course completed, every
plan course bucketed by comparing its semester order with `cur`. -/
def specStats (years : List AcademicYear) (staged : List StagedModule)
    (cur : Nat) : Stats :=
  { completed := exemptedCredits staged + planCreditIf years (fun o => decide (o < cur)),
    current := planCreditIf years (fun o => decide (o = cur)),
    planned := planCreditIf years (fun o => decide (cur < o)) }

/-- Pointwise addition onto the three stat buckets, used to relate the
accumulator folds with the spec sums. -/
def statsPlus (st : Stats) (a b c : Nat) : Stats :=
  { completed := st.completed + a, current := st.current + b, planned := st.planned + c }

/-- The uniqueness invariant of the spec: a course code appears at most once
across Plan ∪ Exempted. -/
def uniqueInvariant (years : List AcademicYear) (staged : List StagedModule) : Prop :=
  (allCodes years staged).Nodup

/-- The prerequisite-map entry that `checkAllConstraints` produces for a
non-fluff course given the oracle answer on its `completedBefore` set. -/
def prereqEntry (pO : PrereqOracle) (cb : List String) (c : String) :
    Option (List String) :=
  match pO c cb with
  | some r => if !r.satisfied && decide (0 < r.missing.length) then some r.missing else none
  | none => none

/-- The offering-map entry for a non-fluff course. -/
def offerEntry (oO : OfferOracle) (semNum : Nat) (c : String) : Option String :=
  match oO c semNum with
  | some offered =>
    if !offered then some ("Not offered in Semester " ++ toString semNum) else none
  | none => none

/-- The first semester id holding a given code, the information a caller
would need to locate a duplicate. -/
def semesterHolding (years : List AcademicYear) (c : String) : Option Nat :=
  ((years.flatMap fun y =>
      y.semesters.filter fun s => s.modules.any fun m => m.code == c).map (·.id)).head?

/-- The codes of the ten Unrestricted Elective slots of `REQUIREMENTS`. -/
def ueSlotCodes : List String :=
  ["UE 1", "UE 2", "UE 3", "UE 4", "UE 5", "UE 6", "UE 7", "UE 8", "UE 9", "UE 10"]

/-- How many Unrestricted Elective slots of `reqs` are reported fulfilled. -/
def ueFulfilledCount (reqs : List ReqCategory) (taken : List String) : Nat :=
  (((reqs.filter fun cat => cat.category == "Unrestricted Electives").flatMap
      (·.courses)).filter fun c => checkRequirement reqs taken c.code).length

/-! ### Concrete fixtures for witnesses and counterexamples -/



/-- A 4-credit module fixture. -/
def mkMod (c : String) : Module :=
  { code := c, title := c, units := some 4, fluff := false }

/-- A semester fixture. -/
def mkSem (i : Nat) (n : String) (ms : List Module) : Semester :=
  { id := i, name := n, units := 0, modules := ms, isExchange := false }

/-- Rewrite every module's `fluff` flag by `f`, leaving codes, titles and
credits unchanged: used to state that the progress totals are independent
of the fluff flag. -/
def mapFluff (f : Module → Bool) (years : List AcademicYear) : List AcademicYear :=
  years.map fun y =>
    { y with semesters := y.semesters.map fun s =>
        { s with modules := s.modules.map fun m => { m with fluff := f m } } }

/-- A plan whose single course is flagged fluff, for the C7 witness. -/
def fixFluff : List AcademicYear :=
  [⟨1, [mkSem 1 "Semester 1"
          [{ code := "CS9999", title := "Fluffy", units := some 4, fluff := true }],
        mkSem 2 "Semester 2" []]⟩]

/-- One year, `CS1010` placed in Semester 1. -/
def fixA : List AcademicYear :=
  [⟨1, [mkSem 1 "Semester 1" [mkMod "CS1010"], mkSem 2 "Semester 2" []]⟩]

/-- Two years, `CS1010` placed in the third semester (id 3). -/
def fixB : List AcademicYear :=
  [⟨1, [mkSem 1 "Semester 1" [], mkSem 2 "Semester 2" []]⟩,
   ⟨2, [mkSem 3 "Semester 1" [mkMod "CS1010"], mkSem 4 "Semester 2" []]⟩]

/-- One year, `GEC1021` placed in Semester 2 (order 12). -/
def fixFuture : List AcademicYear :=
  [⟨1, [mkSem 1 "Semester 1" [], mkSem 2 "Semester 2" [mkMod "GEC1021"]]⟩]

/-- One year with an empty regular pair and a Special Term 1 holding
`CS1010` (the id `103` is `year*100 + 3`, from `addSpecialTerm`,
MainBoard.tsx:364). -/
def fixSpecial : List AcademicYear :=
  [⟨1, [mkSem 1 "Semester 1" [], mkSem 2 "Semester 2" [],
        mkSem 103 "Special Term 1" [mkMod "CS1010"]]⟩]

/-- The same plan with the special term emptied. -/
def fixSpecialEmpty : List AcademicYear :=
  [⟨1, [mkSem 1 "Semester 1" [], mkSem 2 "Semester 2" [],
        mkSem 103 "Special Term 1" []]⟩]

/-- The scenario-2 plan: `CS1101S` and `CS2040S` both at order 11. -/
def fixSameSem : List AcademicYear :=
  [⟨1, [mkSem 1 "Semester 1" [mkMod "CS1101S", mkMod "CS2040S"],
        mkSem 2 "Semester 2" []]⟩]

/-- One year, `GEC1021` placed in the past Semester 1 at pointer Y2S1. -/
def fixPast : List AcademicYear :=
  [⟨1, [mkSem 1 "Semester 1" [mkMod "GEC1021"], mkSem 2 "Semester 2" []]⟩]

/-- The staged fixture for the C3 counterexample: a user-typed staged code
equal to the literal slot label `UE 7`. -/
def fixStagedUE : List StagedModule :=
  [{ id := "9", code := "UE 7", type := .exempted, mcs := 4 }]

/-- An exempted staged course used by the C6 witness. -/
def fixExempted : List StagedModule :=
  [{ id := "2", code := "MA1301", type := .exempted, mcs := 4 }]

/-- The scenario catalog: `CS2040S` requires `CS1101S`. -/
def fixCatalog : Catalog := fun c =>
  if c = "CS2040S" then some (.leaf "CS1101S") else none

/-! ## Theorems -/

/-- C10, counterexample.  The claim says a violation map computed from a
stale Plan snapshot is never published.  In the loop embedded from
MainBoard.tsx:425-481 the trace mutate-to-1, timer-fire, mutate-to-2,
run-complete reaches a state whose published result was computed from plan
1 while the plan current at publish time was 2: the in-flight run is not
discarded. -/
theorem C10_stale_publish_counterexample :
    ValidReachable Nat 0
      { plan := 2, pending := some 2, inflight := [],
        published := some (1, 2) } ∧ (1 : Nat) ≠ 2 := by
  refine ⟨?_, by decide⟩
  have h1 : ValidStep Nat (validInit 0)
      { plan := 1, pending := some 1, inflight := [], published := none } :=
    ValidStep.mutate _ 1
  have h2 : ValidStep Nat
      { plan := 1, pending := some 1, inflight := [], published := none }
      { plan := 1, pending := none, inflight := [1], published := none } :=
    ValidStep.fire _ 1 rfl
  have h3 : ValidStep Nat
      { plan := 1, pending := none, inflight := [1], published := none }
      { plan := 2, pending := some 2, inflight := [1], published := none } :=
    ValidStep.mutate _ 2
  have h4 : ValidStep Nat
      { plan := 2, pending := some 2, inflight := [1], published := none }
      { plan := 2, pending := some 2, inflight := [], published := some (1, 2) } :=
    ValidStep.complete _ 1 (by simp)
  exact Relation.ReflTransGen.head h1 (Relation.ReflTransGen.head h2
    (Relation.ReflTransGen.head h3 (Relation.ReflTransGen.single h4)))

/-- C10, amended.  What does hold of the debounce loop: a pending
(not-yet-started) run always captures the plan current at the moment it
would start, because every mutation clears the still-pending timer; so runs
that are discarded before starting can never contribute, and only an
in-flight run (as in the counterexample) can publish a stale result. -/
theorem C10_pending_snapshot_current {P : Type} [DecidableEq P] (p0 : P)
    (σ : ValidState P) (h : ValidReachable P p0 σ) :
    ∀ s, σ.pending = some s → s = σ.plan := by
  induction h with
  | refl =>
    intro s hs
    simp only [validInit, Option.some.injEq] at hs
    simp [validInit, hs]
  | tail _ hstep ih =>
    cases hstep with
    | mutate p' =>
      intro s hs
      simp only [Option.some.injEq] at hs
      simp [hs]
    | fire s' h' =>
      intro s hs
      simp at hs
    | complete s' h' =>
      intro s hs
      exact ih s hs

/-- C10, witness for the amended theorem, applied at the initial state. -/
theorem C10_pending_snapshot_current_witness : (0 : Nat) = (validInit (0 : Nat)).plan :=
  C10_pending_snapshot_current 0 (validInit 0) Relation.ReflTransGen.refl 0 rfl

/-- C5, counterexample.  The claim says the caller is informed which
semester already holds the conflicting code.  Two plans in which the
duplicate `CS1010` sits in different semesters (id 1 vs id 3) produce
byte-identical rejection outcomes — the toast names the code only — so the
outcome cannot inform the caller of the holding semester. -/
theorem C5_no_semester_in_message_counterexample :
    (handleDrop fixA [] ⟨"CS1010", .staged, none⟩ 2 none).2.2 =
      (handleDrop fixB [] ⟨"CS1010", .staged, none⟩ 2 none).2.2 ∧
    (handleDrop fixA [] ⟨"CS1010", .staged, none⟩ 2 none).2.2 =
      .rejectedDuplicate "CS1010 already exists in your study plan" ∧
    semesterHolding fixA "CS1010" = some 1 ∧
    semesterHolding fixB "CS1010" = some 3 ∧
    (handleDrop fixA [] ⟨"CS1010", .staged, none⟩ 2 none).1 = fixA := by
  decide

/-- C5, amended: when a drop (other than a same-semester reorder) targets an
existing semester and the dragged code already exists in a plan semester
other than the source, the mutation is rejected, the caller is informed by
a message naming the code (but not the holding semester), and the plan
state is returned completely unchanged. -/
theorem C5_duplicate_drop_rejected_unchanged (years : List AcademicYear)
    (staged : List StagedModule) (drag : DragState) (targetSemId : Nat)
    (insertAtIndex : Option Nat)
    (hnr : (drag.source == DragSource.semester && drag.sourceId == some targetSemId) = false)
    (ht : (years.any fun y => y.semesters.any fun s => s.id == targetSemId) = true)
    (hex : (years.any fun y => y.semesters.any fun s =>
        if drag.source == DragSource.semester && drag.sourceId == some s.id then false
        else s.modules.any fun m => m.code == drag.code) = true) :
    handleDrop years staged drag targetSemId insertAtIndex =
      (years, staged,
       .rejectedDuplicate (drag.code ++ " already exists in your study plan")) := by
  unfold handleDrop
  simp only [hnr, ht, hex, Bool.false_eq_true, if_false, Bool.and_self, if_true]

/-- C5, witness: the amended duplicate-rejection theorem at the concrete
`fixA` plan. -/
theorem C5_duplicate_drop_rejected_unchanged_witness :
    handleDrop fixA [] ⟨"CS1010", .staged, none⟩ 2 none =
      (fixA, [], .rejectedDuplicate ("CS1010" ++ " already exists in your study plan")) :=
  C5_duplicate_drop_rejected_unchanged fixA [] ⟨"CS1010", .staged, none⟩ 2 none
    (by decide) (by decide) (by decide)

/-- C4, counterexample.  The claim says every accepted mutation preserves
the at-most-once invariant.  Adding an exempted course
(MainBoard.tsx:1850-1866) performs no duplicate check: adding `CS1010` as
exempted while `CS1010` is placed in Semester 1 is accepted and yields a
state with the code both placed and exempted. -/
theorem C4_exempted_add_breaks_uniqueness_counterexample :
    uniqueInvariant fixA [] ∧
    ¬ uniqueInvariant fixA (addExemptedCourse [] "1" "CS1010" 4) := by
  unfold uniqueInvariant
  exact ⟨by decide, by decide⟩

/-- C2, counterexample.  The claim says a slot is fulfilled iff some code in
Plan ∪ Exempted matches.  `GEC1021` is in the Plan (future semester, order
12, pointer Y1S1) and matches the wildcard `GEC%`, yet the matcher reports
the slot unfulfilled, because `allTakenModules` only contains codes of
strictly-past semesters plus staged codes. -/
theorem C2_future_code_not_counted_counterexample :
    "GEC1021" ∈ allCodes fixFuture [] ∧
    strEnds "GEC%" "%" = true ∧
    strStarts "GEC1021" (strDropLast "GEC%") = true ∧
    checkRequirement REQUIREMENTS (allTakenModules fixFuture [] 1 1) "GEC%" = false := by
  decide

/-- C8, counterexample.  The claim says special-term courses are excluded
from standard credit accounting and carry no order.  A plan whose only
course sits in a Special Term 1 of year 1 changes the progress snapshot
(the course is counted as current at pointer Y1S1, pseudo-order 11), and
that course is included in the strictly-earlier `completedBefore` set of
order 12. -/
theorem C8_special_term_counted_counterexample :
    progressionStats fixSpecial [] 1 1 ≠ progressionStats fixSpecialEmpty [] 1 1 ∧
    (progressionStats fixSpecial [] 1 1).current = 4 ∧
    "CS1010" ∈ completedBefore fixSpecial [] 12 := by
  decide

/-- C3, counterexample.  The claim says exactly min(N, M) UE slots are
fulfilled, at positions 1..min(N, M), independently of which codes are
unconsumed.  With the single taken code `UE 7` (N = 1) the direct
base-match of `checkRequirement` also fulfils slot `UE 7`, so two slots
(positions 1 and 7) are fulfilled instead of exactly position 1. -/
theorem C3_ue_label_code_counterexample :
    (ueUnconsumed REQUIREMENTS (allTakenModules [] fixStagedUE 1 1)).length = 1 ∧
    checkRequirement REQUIREMENTS (allTakenModules [] fixStagedUE 1 1) "UE 7" = true ∧
    ueFulfilledCount REQUIREMENTS (allTakenModules [] fixStagedUE 1 1) = 2 ∧
    ueFulfilledCount REQUIREMENTS (allTakenModules [] fixStagedUE 1 1) ≠
      min (ueUnconsumed REQUIREMENTS (allTakenModules [] fixStagedUE 1 1)).length 10 := by
  decide

/-- C2, amended: for every non-UE requirement slot, the matcher reports the
slot fulfilled iff some code in the *taken* set — the codes placed in
semesters of order strictly below the current pointer, plus all staged
codes — normalizes to the slot's base for an exact pattern, or starts with
the pattern's prefix for a wildcard pattern; membership in the taken set is
characterized in the second conjunct. -/
theorem C2_matcher_fulfillment_characterization (years : List AcademicYear)
    (staged : List StagedModule) (curY curS : Nat) (pat : String)
    (hUE : strStarts pat "UE" = false) :
    (checkRequirement REQUIREMENTS (allTakenModules years staged curY curS) pat = true ↔
      ((∃ c ∈ allTakenModules years staged curY curS, getBaseCode c = getBaseCode pat) ∨
       (strEnds pat "%" = true ∧
        ∃ c ∈ allTakenModules years staged curY curS,
          strStarts c (strDropLast pat) = true))) ∧
    (∀ c, c ∈ allTakenModules years staged curY curS ↔
      ((∃ y ∈ years, ∃ s ∈ y.semesters,
          semOrder y.year s < curY * 10 + curS ∧ c ∈ s.modules.map (·.code)) ∨
       c ∈ staged.map (·.code))) := by
  constructor
  · simp only [checkRequirement]
    by_cases h1 :
        ((allTakenModules years staged curY curS).any fun t =>
          getBaseCode t == getBaseCode pat) = true
    · rw [if_pos h1]
      simp only [List.any_eq_true, beq_iff_eq] at h1
      exact ⟨fun _ => Or.inl h1, fun _ => rfl⟩
    · rw [if_neg h1]
      rw [Bool.not_eq_true] at h1
      by_cases h2 : strEnds pat "%" = true
      · rw [if_pos h2]
        constructor
        · intro h
          exact Or.inr ⟨h2, by simpa [List.any_eq_true] using h⟩
        · intro h
          rcases h with h | ⟨_, h⟩
          · exfalso
            rw [List.any_eq_false] at h1
            rcases h with ⟨c, hc, hb⟩
            exact absurd (by simpa using hb) (by simpa using h1 c hc)
          · simpa [List.any_eq_true] using h
      · rw [if_neg h2, if_neg (by simp [hUE])]
        constructor
        · intro h
          cases h
        · intro h
          rcases h with h | ⟨h, _⟩
          · exfalso
            rw [List.any_eq_false] at h1
            rcases h with ⟨c, hc, hb⟩
            exact absurd (by simpa using hb) (by simpa using h1 c hc)
          · exact absurd h h2
  · intro c
    simp only [allTakenModules, List.mem_dedup, List.mem_append, List.mem_flatMap]
    constructor
    · rintro (⟨y, hy, s, hs, hc⟩ | h)
      · by_cases ho : semOrder y.year s < curY * 10 + curS
        · rw [if_pos ho] at hc
          exact Or.inl ⟨y, hy, s, hs, ho, hc⟩
        · rw [if_neg ho] at hc
          cases hc
      · exact Or.inr h
    · rintro (⟨y, hy, s, hs, ho, hc⟩ | h)
      · exact Or.inl ⟨y, hy, s, hs, by rw [if_pos ho]; exact hc⟩
      · exact Or.inr h

/-- C2, witness for the amended theorem: at `fixPast` with pointer Y2S1 the
wildcard slot `GEC%` is characterized (and, by the left disjunct being
inhabited through `GEC1021`, fulfilled). -/
theorem C2_matcher_fulfillment_characterization_witness :
    strStarts "GEC%" "UE" = false ∧
    ((checkRequirement REQUIREMENTS (allTakenModules fixPast [] 2 1) "GEC%" = true ↔
      ((∃ c ∈ allTakenModules fixPast [] 2 1, getBaseCode c = getBaseCode "GEC%") ∨
       (strEnds "GEC%" "%" = true ∧
        ∃ c ∈ allTakenModules fixPast [] 2 1,
          strStarts c (strDropLast "GEC%") = true))) ∧
     (∀ c, c ∈ allTakenModules fixPast [] 2 1 ↔
       ((∃ y ∈ fixPast, ∃ s ∈ y.semesters,
           semOrder y.year s < 2 * 10 + 1 ∧ c ∈ s.modules.map (·.code)) ∨
        c ∈ ([] : List StagedModule).map (·.code)))) :=
  ⟨by decide, C2_matcher_fulfillment_characterization fixPast [] 2 1 "GEC%" (by decide)⟩

/-- Evaluation of `checkRequirement` on a UE slot whose label base-matches
no taken code: the overflow branch fires and the slot is fulfilled iff the
parsed slot number is at most the number of unconsumed codes. -/
theorem checkReq_ue_slot_iff (taken : List String) (slot : String) (n : Nat)
    (hd : ∀ t ∈ taken, getBaseCode t ≠ getBaseCode slot)
    (he : strEnds slot "%" = false)
    (hs : strStarts slot "UE" = true)
    (hp : parseIntJS ((splitSpace slot).getD 1 "") = some n) :
    (checkRequirement REQUIREMENTS taken slot = true ↔
      n ≤ (ueUnconsumed REQUIREMENTS taken).length) := by
  simp only [checkRequirement]
  have h1 : ((taken.any fun t => getBaseCode t == getBaseCode slot)) = false := by
    rw [List.any_eq_false]
    intro t ht
    simpa using hd t ht
  rw [if_neg (by simp [h1]), if_neg (by simp [he]), if_pos (by simp [hs]), hp]
  simp only [decide_eq_true_eq]
  omega

/-- C3, amended: provided no taken code has a base code equal to one of the
literal UE slot labels (`"UE 1"`..`"UE 10"`), exactly
`min N 10` of the ten Unrestricted Elective slots are fulfilled — where `N`
is the number of taken codes not consumed by any non-elective category
slot — the fulfilled slots being exactly positions `1..min N 10`; the
result depends only on `N`, not on which specific codes are unconsumed. -/
theorem C3_ue_overflow_allocation (taken : List String)
    (h : ∀ c ∈ taken, ∀ sc ∈ ueSlotCodes, getBaseCode c ≠ sc) :
    ueFulfilledCount REQUIREMENTS taken =
      min (ueUnconsumed REQUIREMENTS taken).length 10 ∧
    ∀ k, k < 10 →
      (checkRequirement REQUIREMENTS taken (ueSlotCodes.getD k "") = true ↔
        k + 1 ≤ (ueUnconsumed REQUIREMENTS taken).length) := by
  have hslot : ∀ k, k < 10 →
      (checkRequirement REQUIREMENTS taken (ueSlotCodes.getD k "") = true ↔
        k + 1 ≤ (ueUnconsumed REQUIREMENTS taken).length) := by
    intro k hk
    interval_cases k
    · exact checkReq_ue_slot_iff taken "UE 1" 1
        (fun t ht => by
          rw [show getBaseCode "UE 1" = "UE 1" from by decide]
          exact h t ht "UE 1" (by decide))
        (by decide) (by decide) (by decide)
    · exact checkReq_ue_slot_iff taken "UE 2" 2
        (fun t ht => by
          rw [show getBaseCode "UE 2" = "UE 2" from by decide]
          exact h t ht "UE 2" (by decide))
        (by decide) (by decide) (by decide)
    · exact checkReq_ue_slot_iff taken "UE 3" 3
        (fun t ht => by
          rw [show getBaseCode "UE 3" = "UE 3" from by decide]
          exact h t ht "UE 3" (by decide))
        (by decide) (by decide) (by decide)
    · exact checkReq_ue_slot_iff taken "UE 4" 4
        (fun t ht => by
          rw [show getBaseCode "UE 4" = "UE 4" from by decide]
          exact h t ht "UE 4" (by decide))
        (by decide) (by decide) (by decide)
    · exact checkReq_ue_slot_iff taken "UE 5" 5
        (fun t ht => by
          rw [show getBaseCode "UE 5" = "UE 5" from by decide]
          exact h t ht "UE 5" (by decide))
        (by decide) (by decide) (by decide)
    · exact checkReq_ue_slot_iff taken "UE 6" 6
        (fun t ht => by
          rw [show getBaseCode "UE 6" = "UE 6" from by decide]
          exact h t ht "UE 6" (by decide))
        (by decide) (by decide) (by decide)
    · exact checkReq_ue_slot_iff taken "UE 7" 7
        (fun t ht => by
          rw [show getBaseCode "UE 7" = "UE 7" from by decide]
          exact h t ht "UE 7" (by decide))
        (by decide) (by decide) (by decide)
    · exact checkReq_ue_slot_iff taken "UE 8" 8
        (fun t ht => by
          rw [show getBaseCode "UE 8" = "UE 8" from by decide]
          exact h t ht "UE 8" (by decide))
        (by decide) (by decide) (by decide)
    · exact checkReq_ue_slot_iff taken "UE 9" 9
        (fun t ht => by
          rw [show getBaseCode "UE 9" = "UE 9" from by decide]
          exact h t ht "UE 9" (by decide))
        (by decide) (by decide) (by decide)
    · exact checkReq_ue_slot_iff taken "UE 10" 10
        (fun t ht => by
          rw [show getBaseCode "UE 10" = "UE 10" from by decide]
          exact h t ht "UE 10" (by decide))
        (by decide) (by decide) (by decide)
  refine ⟨?_, hslot⟩
  have hb : ∀ k, k < 10 →
      checkRequirement REQUIREMENTS taken (ueSlotCodes.getD k "") =
        decide (k + 1 ≤ (ueUnconsumed REQUIREMENTS taken).length) := by
    intro k hk
    have hiff := hslot k hk
    cases hcv : checkRequirement REQUIREMENTS taken (ueSlotCodes.getD k "") with
    | true => exact Eq.symm (decide_eq_true (hiff.mp hcv))
    | false =>
      refine Eq.symm (decide_eq_false fun hle => ?_)
      rw [hiff.mpr hle] at hcv
      cases hcv
  have f1 : checkRequirement REQUIREMENTS taken "UE 1" =
      decide (1 ≤ (ueUnconsumed REQUIREMENTS taken).length) := hb 0 (by omega)
  have f2 : checkRequirement REQUIREMENTS taken "UE 2" =
      decide (2 ≤ (ueUnconsumed REQUIREMENTS taken).length) := hb 1 (by omega)
  have f3 : checkRequirement REQUIREMENTS taken "UE 3" =
      decide (3 ≤ (ueUnconsumed REQUIREMENTS taken).length) := hb 2 (by omega)
  have f4 : checkRequirement REQUIREMENTS taken "UE 4" =
      decide (4 ≤ (ueUnconsumed REQUIREMENTS taken).length) := hb 3 (by omega)
  have f5 : checkRequirement REQUIREMENTS taken "UE 5" =
      decide (5 ≤ (ueUnconsumed REQUIREMENTS taken).length) := hb 4 (by omega)
  have f6 : checkRequirement REQUIREMENTS taken "UE 6" =
      decide (6 ≤ (ueUnconsumed REQUIREMENTS taken).length) := hb 5 (by omega)
  have f7 : checkRequirement REQUIREMENTS taken "UE 7" =
      decide (7 ≤ (ueUnconsumed REQUIREMENTS taken).length) := hb 6 (by omega)
  have f8 : checkRequirement REQUIREMENTS taken "UE 8" =
      decide (8 ≤ (ueUnconsumed REQUIREMENTS taken).length) := hb 7 (by omega)
  have f9 : checkRequirement REQUIREMENTS taken "UE 9" =
      decide (9 ≤ (ueUnconsumed REQUIREMENTS taken).length) := hb 8 (by omega)
  have f10 : checkRequirement REQUIREMENTS taken "UE 10" =
      decide (10 ≤ (ueUnconsumed REQUIREMENTS taken).length) := hb 9 (by omega)
  have hlist : ((REQUIREMENTS.filter fun cat =>
      cat.category == "Unrestricted Electives").flatMap (·.courses)) =
      ueSlotCodes.map (fun sc => (⟨sc, "General Elective"⟩ : ReqCourse)) := by
    decide
  have hcnt : ueFulfilledCount REQUIREMENTS taken =
      List.countP (fun sc => checkRequirement REQUIREMENTS taken sc) ueSlotCodes := by
    unfold ueFulfilledCount
    rw [hlist, ← List.countP_eq_length_filter, List.countP_map]
    rfl
  rw [hcnt]
  simp only [ueSlotCodes, List.countP_cons, List.countP_nil]
  rw [f1, f2, f3, f4, f5, f6, f7, f8, f9, f10]
  rcases Nat.lt_or_ge (ueUnconsumed REQUIREMENTS taken).length 10 with hN | hN
  · set N := (ueUnconsumed REQUIREMENTS taken).length with hNdef
    clear_value N
    interval_cases N <;> decide
  · rw [if_pos (decide_eq_true (by omega : 1 ≤ (ueUnconsumed REQUIREMENTS taken).length)),
       if_pos (decide_eq_true (by omega : 2 ≤ (ueUnconsumed REQUIREMENTS taken).length)),
       if_pos (decide_eq_true (by omega : 3 ≤ (ueUnconsumed REQUIREMENTS taken).length)),
       if_pos (decide_eq_true (by omega : 4 ≤ (ueUnconsumed REQUIREMENTS taken).length)),
       if_pos (decide_eq_true (by omega : 5 ≤ (ueUnconsumed REQUIREMENTS taken).length)),
       if_pos (decide_eq_true (by omega : 6 ≤ (ueUnconsumed REQUIREMENTS taken).length)),
       if_pos (decide_eq_true (by omega : 7 ≤ (ueUnconsumed REQUIREMENTS taken).length)),
       if_pos (decide_eq_true (by omega : 8 ≤ (ueUnconsumed REQUIREMENTS taken).length)),
       if_pos (decide_eq_true (by omega : 9 ≤ (ueUnconsumed REQUIREMENTS taken).length)),
       if_pos (decide_eq_true (by omega : 10 ≤ (ueUnconsumed REQUIREMENTS taken).length))]
    omega

/-- C3, witness for the amended theorem: three distinct unconsumed codes
fulfil exactly slots 1-3 of 10. -/
theorem C3_ue_overflow_allocation_witness :
    (∀ c ∈ ["ZZ9001", "ZZ9002", "ZZ9003"], ∀ sc ∈ ueSlotCodes, getBaseCode c ≠ sc) ∧
    (ueFulfilledCount REQUIREMENTS ["ZZ9001", "ZZ9002", "ZZ9003"] =
       min (ueUnconsumed REQUIREMENTS ["ZZ9001", "ZZ9002", "ZZ9003"]).length 10 ∧
     ∀ k, k < 10 →
       (checkRequirement REQUIREMENTS ["ZZ9001", "ZZ9002", "ZZ9003"]
           (ueSlotCodes.getD k "") = true ↔
         k + 1 ≤ (ueUnconsumed REQUIREMENTS ["ZZ9001", "ZZ9002", "ZZ9003"]).length)) :=
  ⟨by decide, C3_ue_overflow_allocation ["ZZ9001", "ZZ9002", "ZZ9003"] (by decide)⟩

/-! ### The progress-snapshot partition (helpers for C6 and C8) -/

/-- `bucketAdd` with zero credits is the identity. -/
theorem bucketAdd_zero (st : Stats) (o cur : Nat) : bucketAdd st o cur 0 = st := by
  unfold bucketAdd
  by_cases h1 : o < cur
  · simp [h1]
  · by_cases h2 : o = cur <;> simp [h1, h2]

/-- Two `bucketAdd`s into the same bucket merge. -/
theorem bucketAdd_add (st : Stats) (o cur x y : Nat) :
    bucketAdd (bucketAdd st o cur x) o cur y = bucketAdd st o cur (x + y) := by
  unfold bucketAdd
  by_cases h1 : o < cur
  · simp [h1, Nat.add_assoc]
  · by_cases h2 : o = cur <;> simp [h1, h2, Nat.add_assoc]

/-- `bucketAdd` expressed through `statsPlus` and the order trichotomy. -/
theorem bucketAdd_eq_statsPlus (st : Stats) (o cur t : Nat) :
    bucketAdd st o cur t =
      statsPlus st (if o < cur then t else 0) (if o = cur then t else 0)
        (if cur < o then t else 0) := by
  unfold bucketAdd statsPlus
  by_cases h1 : o < cur
  · simp [h1, Nat.ne_of_lt h1, show ¬ cur < o by omega]
  · by_cases h2 : o = cur
    · simp [h1, h2]
    · simp [h1, h2, show cur < o by omega]

/-- Merging two `statsPlus` layers. -/
theorem statsPlus_statsPlus (st : Stats) (a b c d e f : Nat) :
    statsPlus (statsPlus st a b c) d e f = statsPlus st (a + d) (b + e) (c + f) := by
  unfold statsPlus
  simp [Nat.add_assoc]

/-- The staged pass of `progressionStats`: with fresh, duplicate-free codes
it adds exactly the exempted credits to `completed` and pushes the exempted
codes onto the seen list. -/
theorem statsAddStaged_eq (ms : List StagedModule) (seen : List String) (st : Stats)
    (hdis : ∀ m ∈ ms, m.code ∉ seen)
    (hnd : (ms.map (·.code)).Nodup) :
    statsAddStaged ms (seen, st) =
      (((ms.filter fun m => m.type == .exempted).map (·.code)).reverse ++ seen,
       statsPlus st (exemptedCredits ms) 0 0) := by
  induction ms generalizing seen st with
  | nil => simp [statsAddStaged, exemptedCredits, statsPlus]
  | cons m ms ih =>
    have hmem : m.code ∉ seen := hdis m (by simp)
    simp only [List.map_cons, List.nodup_cons] at hnd
    by_cases hty : (m.type == StagedType.exempted) = true
    · rw [show statsAddStaged (m :: ms) (seen, st) =
          statsAddStaged ms (m.code :: seen,
            { st with completed := st.completed + m.credit }) by
        simp [statsAddStaged, hty, hmem]]
      rw [ih (m.code :: seen) _ ?_ hnd.2]
      · simp only [List.filter_cons, hty, if_pos, List.map_cons, List.reverse_cons,
          List.append_assoc, List.cons_append, List.nil_append]
        refine congrArg _ ?_
        simp [exemptedCredits, List.filter_cons, hty, statsPlus, Nat.add_assoc]
      · intro m' hm'
        simp only [List.mem_cons, not_or]
        exact ⟨fun he => hnd.1 (he ▸ List.mem_map_of_mem (·.code) hm'),
          hdis m' (List.mem_cons_of_mem _ hm')⟩
    · rw [show statsAddStaged (m :: ms) (seen, st) = statsAddStaged ms (seen, st) by
        simp [statsAddStaged, hty]]
      rw [ih seen st (fun m' hm' => hdis m' (List.mem_cons_of_mem _ hm')) hnd.2]
      simp [List.filter_cons, hty, exemptedCredits]

/-- One semester's pass of `progressionStats`: all its (fresh, distinct)
module credits land in the bucket selected by its order. -/
theorem statsAddModules_eq (semId cur : Nat) (ms : List Module) (seen : List String)
    (st : Stats)
    (hdis : ∀ m ∈ ms, m.code ∉ seen)
    (hnd : (ms.map (·.code)).Nodup) :
    statsAddModules semId cur ms (seen, st) =
      ((ms.map (·.code)).reverse ++ seen,
       bucketAdd st semId cur ((ms.map Module.credit).sum)) := by
  induction ms generalizing seen st with
  | nil => simp [statsAddModules, bucketAdd_zero]
  | cons m ms ih =>
    have hmem : m.code ∉ seen := hdis m (by simp)
    simp only [List.map_cons, List.nodup_cons] at hnd
    rw [show statsAddModules semId cur (m :: ms) (seen, st) =
        statsAddModules semId cur ms
          (m.code :: seen, bucketAdd st semId cur m.credit) by
      simp [statsAddModules, hmem]]
    rw [ih (m.code :: seen) _ ?_ hnd.2]
    · simp [List.reverse_cons, List.append_assoc, bucketAdd_add]
    · intro m' hm'
      simp only [List.mem_cons, not_or]
      exact ⟨fun he => hnd.1 (he ▸ List.mem_map_of_mem (·.code) hm'),
        hdis m' (List.mem_cons_of_mem _ hm')⟩

/-- One year's pass of `progressionStats`, expressed through the three
order-filtered credit sums. -/
theorem statsAddSems_eq (yearNum cur : Nat) (ss : List Semester) (seen : List String)
    (st : Stats)
    (hdis : ∀ s ∈ ss, ∀ m ∈ s.modules, m.code ∉ seen)
    (hnd : (ss.flatMap fun s => s.modules.map (·.code)).Nodup) :
    statsAddSems yearNum cur ss (seen, st) =
      ((ss.flatMap fun s => s.modules.map (·.code)).reverse ++ seen,
       statsPlus st (semsCreditIf yearNum ss (fun o => decide (o < cur)))
         (semsCreditIf yearNum ss (fun o => decide (o = cur)))
         (semsCreditIf yearNum ss (fun o => decide (cur < o)))) := by
  induction ss generalizing seen st with
  | nil => simp [statsAddSems, semsCreditIf, statsPlus]
  | cons s ss ih =>
    simp only [List.flatMap_cons, List.nodup_append] at hnd
    rw [show statsAddSems yearNum cur (s :: ss) (seen, st) =
        statsAddSems yearNum cur ss
          (statsAddModules (semOrder yearNum s) cur s.modules (seen, st)) by
      simp [statsAddSems]]
    rw [statsAddModules_eq _ _ _ _ _ (hdis s (by simp)) hnd.1]
    rw [ih _ _ ?_ hnd.2.1]
    · rw [bucketAdd_eq_statsPlus, statsPlus_statsPlus]
      simp only [List.flatMap_cons, List.reverse_append, List.append_assoc]
      refine congrArg _ ?_
      simp only [semsCreditIf, List.map_cons, List.sum_cons, statsPlus]
      congr 1 <;> simp [semCredits, decide_eq_true_eq]
    · intro s' hs' m' hm'
      simp only [List.mem_append, not_or, List.mem_reverse]
      refine ⟨fun hin => ?_, hdis s' (List.mem_cons_of_mem _ hs') m' hm'⟩
      exact hnd.2.2 hin
        (List.mem_flatMap.mpr ⟨s', hs', List.mem_map_of_mem (·.code) hm'⟩)

/-- The whole plan pass of `progressionStats`. -/
theorem statsAddYears_eq (cur : Nat) (years : List AcademicYear) (seen : List String)
    (st : Stats)
    (hdis : ∀ y ∈ years, ∀ s ∈ y.semesters, ∀ m ∈ s.modules, m.code ∉ seen)
    (hnd : (planCodes years).Nodup) :
    statsAddYears cur years (seen, st) =
      ((planCodes years).reverse ++ seen,
       statsPlus st (planCreditIf years (fun o => decide (o < cur)))
         (planCreditIf years (fun o => decide (o = cur)))
         (planCreditIf years (fun o => decide (cur < o)))) := by
  induction years generalizing seen st with
  | nil => simp [statsAddYears, planCodes, planCreditIf, statsPlus]
  | cons y ys ih =>
    simp only [planCodes, List.flatMap_cons, List.nodup_append] at hnd
    rw [show statsAddYears cur (y :: ys) (seen, st) =
        statsAddYears cur ys (statsAddSems y.year cur y.semesters (seen, st)) by
      simp [statsAddYears]]
    rw [statsAddSems_eq _ _ _ _ _ (hdis y (by simp)) hnd.1]
    rw [ih _ _ ?_ hnd.2.1]
    · rw [statsPlus_statsPlus]
      simp only [planCodes, List.flatMap_cons, List.reverse_append, List.append_assoc]
      refine congrArg _ ?_
      simp [planCreditIf]
    · intro y' hy' s' hs' m' hm'
      simp only [List.mem_append, not_or, List.mem_reverse]
      refine ⟨fun hin => ?_, hdis y' (List.mem_cons_of_mem _ hy') s' hs' m' hm'⟩
      exact hnd.2.2 hin
        (List.mem_flatMap.mpr ⟨y', hy',
          List.mem_flatMap.mpr ⟨s', hs', List.mem_map_of_mem (·.code) hm'⟩⟩)

/-- The progress snapshot equals the claim-side partition whenever no course
code is duplicated across Plan ∪ Staged. -/
theorem progressionStats_eq_specStats (years : List AcademicYear)
    (staged : List StagedModule) (curY curS : Nat)
    (hnd : (allCodes years staged).Nodup) :
    progressionStats years staged curY curS = specStats years staged (curY * 10 + curS) := by
  unfold allCodes at hnd
  rw [List.nodup_append] at hnd
  unfold progressionStats
  rw [statsAddStaged_eq staged [] ⟨0, 0, 0⟩ (by simp) hnd.2.1]
  rw [statsAddYears_eq _ _ _ _ ?_ hnd.1]
  · simp [statsPlus, specStats]
  · intro y hy s hs m hm
    simp only [List.append_nil, List.mem_reverse]
    intro hin
    have hplan : m.code ∈ planCodes years :=
      List.mem_flatMap.mpr ⟨y, hy,
        List.mem_flatMap.mpr ⟨s, hs, List.mem_map_of_mem (·.code) hm⟩⟩
    have hstg : m.code ∈ staged.map (·.code) := by
      rcases List.mem_map.mp hin with ⟨m2, hm2, he⟩
      exact he ▸ List.mem_map_of_mem (·.code) (List.mem_of_mem_filter hm2)
    exact hnd.2.2 hplan hstg

/-- Every semester order is at least 1 (`semNumOf` returns 1 or 2). -/
theorem semOrder_pos (yn : Nat) (s : Semester) : 1 ≤ semOrder yn s := by
  unfold semOrder semNumOf
  split <;> omega

/-- `planCreditIf` only looks at the predicate's values on semester
orders. -/
theorem planCreditIf_congr (years : List AcademicYear) (p q : Nat → Bool)
    (h : ∀ (yn : Nat) (s : Semester), p (semOrder yn s) = q (semOrder yn s)) :
    planCreditIf years p = planCreditIf years q := by
  unfold planCreditIf semsCreditIf
  refine congrArg _ (List.map_congr_left fun y _ => ?_)
  refine congrArg _ (List.map_congr_left fun s _ => ?_)
  rw [h y.year s]

/-- `planCreditIf` with an always-false predicate is zero. -/
theorem planCreditIf_false (years : List AcademicYear) :
    planCreditIf years (fun _ => false) = 0 := by
  unfold planCreditIf semsCreditIf
  simp

/-- C6: with no duplicate codes across Plan ∪ Staged, the progress snapshot
partitions each counted course's credits by comparing its semester order
with `currentOrder = currentYear*10 + currentSemesterNumber` (strictly less
⇒ completed, equal ⇒ current, greater ⇒ planned), every exempted staged
course is counted as completed, and under the sentinel "incoming" pointer
`Y0S0` (parsed to `(0, 0)`, so `currentOrder = 0`) every placed course is
counted as planned (future) while completed holds exactly the exempted
credits. -/
theorem C6_progress_partition (years : List AcademicYear) (staged : List StagedModule)
    (curY curS : Nat) (hnd : (allCodes years staged).Nodup) :
    progressionStats years staged curY curS =
      { completed := exemptedCredits staged +
          planCreditIf years (fun o => decide (o < curY * 10 + curS)),
        current := planCreditIf years (fun o => decide (o = curY * 10 + curS)),
        planned := planCreditIf years (fun o => decide (curY * 10 + curS < o)) } ∧
    parseCurrentSemester "Y0S0" = (0, 0) ∧
    progressionStats years staged (parseCurrentSemester "Y0S0").1
        (parseCurrentSemester "Y0S0").2 =
      { completed := exemptedCredits staged, current := 0,
        planned := planCreditIf years (fun _ => true) } := by
  refine ⟨progressionStats_eq_specStats years staged curY curS hnd, by decide, ?_⟩
  rw [show parseCurrentSemester "Y0S0" = (0, 0) from by decide]
  rw [progressionStats_eq_specStats years staged 0 0 hnd]
  unfold specStats
  have hlt : planCreditIf years (fun o => decide (o < 0 * 10 + 0)) = 0 := by
    rw [planCreditIf_congr years _ (fun _ => false) fun yn s => by simp]
    exact planCreditIf_false years
  have heq : planCreditIf years (fun o => decide (o = 0 * 10 + 0)) = 0 := by
    rw [planCreditIf_congr years _ (fun _ => false) fun yn s => by
      have := semOrder_pos yn s
      simp
      omega]
    exact planCreditIf_false years
  have hgt : planCreditIf years (fun o => decide (0 * 10 + 0 < o)) =
      planCreditIf years (fun _ => true) := by
    refine planCreditIf_congr years _ _ fun yn s => by
      have := semOrder_pos yn s
      simp
      omega
  rw [hlt, heq, hgt]
  simp

/-- C6, witness: the partition theorem applied at `fixPast` (one course in
Semester 1 of year 1) with one exempted course and pointer Y2S1. -/
theorem C6_progress_partition_witness :
    (allCodes fixPast fixExempted).Nodup ∧
    (progressionStats fixPast fixExempted 2 1 =
      { completed := exemptedCredits fixExempted +
          planCreditIf fixPast (fun o => decide (o < 2 * 10 + 1)),
        current := planCreditIf fixPast (fun o => decide (o = 2 * 10 + 1)),
        planned := planCreditIf fixPast (fun o => decide (2 * 10 + 1 < o)) } ∧
     parseCurrentSemester "Y0S0" = (0, 0) ∧
     progressionStats fixPast fixExempted (parseCurrentSemester "Y0S0").1
         (parseCurrentSemester "Y0S0").2 =
       { completed := exemptedCredits fixExempted, current := 0,
         planned := planCreditIf fixPast (fun _ => true) }) :=
  ⟨by decide, C6_progress_partition fixPast fixExempted 2 1 (by decide)⟩

/-- C8, amended: special terms and exchange slots are *not* excluded.
Every semester — regular, special term, or exchange — receives the
pseudo-order `year*10 + (1 if its name contains the character '1' else 2)`,
so "Special Term 1" shares Semester 1's order and "Special Term 2" shares
Semester 2's; courses placed in any semester of strictly smaller
pseudo-order enter the Validator's `completedBefore` set; and the progress
credit totals count every semester's courses through the same partition
(no special-term or exchange exclusion). -/
theorem C8_special_terms_ordered_and_counted :
    (∀ (yn : Nat) (s : Semester), s.name = "Special Term 1" →
      semOrder yn s = yn * 10 + 1) ∧
    (∀ (yn : Nat) (s : Semester), s.name = "Special Term 2" →
      semOrder yn s = yn * 10 + 2) ∧
    (∀ (years : List AcademicYear) (staged : List StagedModule) (o : Nat),
      ∀ y ∈ years, ∀ s ∈ y.semesters, semOrder y.year s < o →
        ∀ c ∈ s.modules.map (·.code), c ∈ completedBefore years staged o) ∧
    (∀ (years : List AcademicYear) (staged : List StagedModule) (curY curS : Nat),
      (allCodes years staged).Nodup →
      progressionStats years staged curY curS =
        specStats years staged (curY * 10 + curS)) := by
  refine ⟨?_, ?_, ?_, fun years staged curY curS hnd =>
    progressionStats_eq_specStats years staged curY curS hnd⟩
  · intro yn s hname
    unfold semOrder semNumOf
    rw [hname, if_pos (by decide : ("Special Term 1".data.contains '1') = true)]
  · intro yn s hname
    unfold semOrder semNumOf
    rw [hname, if_neg (by decide : ¬ ("Special Term 2".data.contains '1') = true)]
  · intro years staged o y hy s hs ho c hc
    unfold completedBefore
    refine List.mem_append.mpr (Or.inl ?_)
    refine List.mem_flatMap.mpr ⟨y, hy, List.mem_flatMap.mpr ⟨s, hs, ?_⟩⟩
    rw [if_pos ho]
    exact hc

/-- C8, witness for the amended theorem: at `fixSpecial` the special term of
year 1 has pseudo-order 11, its course is in the `completedBefore` set of
order 12, and the snapshot counts it. -/
theorem C8_special_terms_ordered_and_counted_witness :
    semOrder 1 (mkSem 103 "Special Term 1" [mkMod "CS1010"]) = 1 * 10 + 1 ∧
    "CS1010" ∈ completedBefore fixSpecial [] 12 ∧
    progressionStats fixSpecial [] 1 1 = specStats fixSpecial [] (1 * 10 + 1) := by
  refine ⟨C8_special_terms_ordered_and_counted.1 1 _ rfl, ?_, ?_⟩
  · refine C8_special_terms_ordered_and_counted.2.2.1 fixSpecial [] 12
      ⟨1, [mkSem 1 "Semester 1" [], mkSem 2 "Semester 2" [],
           mkSem 103 "Special Term 1" [mkMod "CS1010"]]⟩
      (by decide) (mkSem 103 "Special Term 1" [mkMod "CS1010"]) (by decide)
      (by decide) "CS1010" (by decide)
  · exact C8_special_terms_ordered_and_counted.2.2.2 fixSpecial [] 1 1 (by decide)

/-! ### Lookup characterization of the violation maps (helpers for C1, C7, C9) -/
theorem mapGet_mapSet_self {α : Type} (m : List (String × α)) (k : String) (v : α) :
    mapGet (mapSet m k v) k = some v := by
  induction m with
  | nil => simp [mapSet, mapGet]
  | cons p m ih =>
    by_cases h : p.1 == k
    · simp [mapSet, h, mapGet]
    · simp only [mapSet]
      rw [show (p.1 == k) = false by simpa using h]
      simp only [Bool.false_eq_true, if_false, mapGet, List.find?]
      rw [show (p.1 == k) = false by simpa using h]
      exact ih

theorem mapGet_mapSet_ne {α : Type} (m : List (String × α)) (k k' : String) (v : α)
    (h : k' ≠ k) : mapGet (mapSet m k v) k' = mapGet m k' := by
  induction m with
  | nil => simp [mapSet, mapGet, List.find?, show (k == k') = false by simpa using (Ne.symm h)]
  | cons p m ih =>
    by_cases hp : p.1 == k
    · have hpk : p.1 = k := by simpa using hp
      simp only [mapSet, hp, if_true, mapGet, List.find?]
      rw [show (k == k') = false by simpa using (Ne.symm h)]
      rw [show (p.1 == k') = false by rw [hpk]; simpa using (Ne.symm h)]
    · simp only [mapSet]
      rw [show (p.1 == k) = false by simpa using hp]
      simp only [Bool.false_eq_true, if_false, mapGet, List.find?]
      cases hpk : p.1 == k'
      · simpa [mapGet] using ih
      · rfl

theorem checkSemModules_step (pO : PrereqOracle) (oO : OfferOracle)
    (cb : List String) (sn : Nat) (m : Module) (ms : List Module)
    (pV : List (String × List String)) (oV : List (String × String))
    (hf : m.fluff = false) :
    checkSemModules pO oO cb sn (m :: ms) (pV, oV) =
      checkSemModules pO oO cb sn ms
        (match prereqEntry pO cb m.code with
         | some v => mapSet pV m.code v
         | none => pV,
         match offerEntry oO sn m.code with
         | some v => mapSet oV m.code v
         | none => oV) := by
  simp only [checkSemModules, hf, Bool.false_eq_true, if_false]
  refine congrArg _ ?_
  refine Prod.ext ?_ ?_
  · show (match pO m.code cb with
      | some r =>
        if !r.satisfied && decide (0 < r.missing.length) then mapSet pV m.code r.missing
        else pV
      | none => pV) = _
    unfold prereqEntry
    cases hp : pO m.code cb with
    | none => rfl
    | some r =>
      by_cases hcond : (!r.satisfied && decide (0 < r.missing.length)) = true
      · simp [hcond]
      · simp [hcond]
  · show (match oO m.code sn with
      | some offered =>
        if !offered then mapSet oV m.code ("Not offered in Semester " ++ toString sn)
        else oV
      | none => oV) = _
    unfold offerEntry
    cases ho : oO m.code sn with
    | none => rfl
    | some offered =>
      by_cases hcond : (!offered) = true
      · simp [hcond]
      · simp [hcond]

theorem checkSemModules_fst_frozen (pO : PrereqOracle) (oO : OfferOracle)
    (cb : List String) (sn : Nat) (ms : List Module) (acc : Violations) (c : String)
    (h : ∀ m ∈ ms, m.code = c → m.fluff = true ∨ prereqEntry pO cb c = none) :
    mapGet (checkSemModules pO oO cb sn ms acc).1 c = mapGet acc.1 c := by
  induction ms generalizing acc with
  | nil => rfl
  | cons m ms ih =>
    obtain ⟨pV, oV⟩ := acc
    by_cases hf : m.fluff = true
    · rw [show checkSemModules pO oO cb sn (m :: ms) (pV, oV) =
          checkSemModules pO oO cb sn ms (pV, oV) by
        simp [checkSemModules, hf]]
      exact ih _ fun m' hm' => h m' (List.mem_cons_of_mem _ hm')
    · rw [checkSemModules_step pO oO cb sn m ms pV oV (by simpa using hf)]
      rw [ih _ fun m' hm' => h m' (List.mem_cons_of_mem _ hm')]
      show mapGet (match prereqEntry pO cb m.code with
        | some v => mapSet pV m.code v
        | none => pV) c = mapGet pV c
      by_cases hc : m.code = c
      · rcases h m (by simp) hc with hfl | hent
        · exact absurd hfl hf
        · rw [hc, hent]
      · cases hent : prereqEntry pO cb m.code with
        | none => rfl
        | some v => exact mapGet_mapSet_ne pV m.code c v (Ne.symm hc)

theorem checkSemModules_snd_frozen (pO : PrereqOracle) (oO : OfferOracle)
    (cb : List String) (sn : Nat) (ms : List Module) (acc : Violations) (c : String)
    (h : ∀ m ∈ ms, m.code = c → m.fluff = true ∨ offerEntry oO sn c = none) :
    mapGet (checkSemModules pO oO cb sn ms acc).2 c = mapGet acc.2 c := by
  induction ms generalizing acc with
  | nil => rfl
  | cons m ms ih =>
    obtain ⟨pV, oV⟩ := acc
    by_cases hf : m.fluff = true
    · rw [show checkSemModules pO oO cb sn (m :: ms) (pV, oV) =
          checkSemModules pO oO cb sn ms (pV, oV) by
        simp [checkSemModules, hf]]
      exact ih _ fun m' hm' => h m' (List.mem_cons_of_mem _ hm')
    · rw [checkSemModules_step pO oO cb sn m ms pV oV (by simpa using hf)]
      rw [ih _ fun m' hm' => h m' (List.mem_cons_of_mem _ hm')]
      show mapGet (match offerEntry oO sn m.code with
        | some v => mapSet oV m.code v
        | none => oV) c = mapGet oV c
      by_cases hc : m.code = c
      · rcases h m (by simp) hc with hfl | hent
        · exact absurd hfl hf
        · rw [hc, hent]
      · cases hent : offerEntry oO sn m.code with
        | none => rfl
        | some v => exact mapGet_mapSet_ne oV m.code c v (Ne.symm hc)

theorem checkSemModules_fst_lookup (pO : PrereqOracle) (oO : OfferOracle)
    (cb : List String) (sn : Nat) (ms : List Module) (acc : Violations)
    (m : Module) (hm : m ∈ ms) (hf : m.fluff = false)
    (hnd : (ms.map (·.code)).Nodup) :
    mapGet (checkSemModules pO oO cb sn ms acc).1 m.code =
      match prereqEntry pO cb m.code with
      | some v => some v
      | none => mapGet acc.1 m.code := by
  induction ms generalizing acc with
  | nil => cases hm
  | cons m' ms ih =>
    obtain ⟨pV, oV⟩ := acc
    simp only [List.map_cons, List.nodup_cons] at hnd
    rcases List.mem_cons.mp hm with he | htl
    · subst he
      rw [checkSemModules_step pO oO cb sn m ms pV oV hf]
      rw [checkSemModules_fst_frozen pO oO cb sn ms _ m.code
        (fun m'' hm'' hcc => absurd (hcc ▸ List.mem_map_of_mem (·.code) hm'') hnd.1)]
      show mapGet (match prereqEntry pO cb m.code with
        | some v => mapSet pV m.code v
        | none => pV) m.code =
        match prereqEntry pO cb m.code with
        | some v => some v
        | none => mapGet pV m.code
      cases hent : prereqEntry pO cb m.code with
      | none => rfl
      | some v => exact mapGet_mapSet_self pV m.code v
    · have hne : m'.code ≠ m.code := fun he =>
        hnd.1 (he ▸ List.mem_map_of_mem (·.code) htl)
      by_cases hf' : m'.fluff = true
      · rw [show checkSemModules pO oO cb sn (m' :: ms) (pV, oV) =
            checkSemModules pO oO cb sn ms (pV, oV) by
          simp [checkSemModules, hf']]
        exact ih (pV, oV) htl hnd.2
      · rw [checkSemModules_step pO oO cb sn m' ms pV oV (by simpa using hf')]
        rw [ih _ htl hnd.2]
        cases hent : prereqEntry pO cb m.code with
        | some v => rfl
        | none =>
          show mapGet (match prereqEntry pO cb m'.code with
            | some v => mapSet pV m'.code v
            | none => pV) m.code = mapGet pV m.code
          cases hent' : prereqEntry pO cb m'.code with
          | none => rfl
          | some w => exact mapGet_mapSet_ne pV m'.code m.code w (Ne.symm hne)

theorem checkSemModules_snd_lookup (pO : PrereqOracle) (oO : OfferOracle)
    (cb : List String) (sn : Nat) (ms : List Module) (acc : Violations)
    (m : Module) (hm : m ∈ ms) (hf : m.fluff = false)
    (hnd : (ms.map (·.code)).Nodup) :
    mapGet (checkSemModules pO oO cb sn ms acc).2 m.code =
      match offerEntry oO sn m.code with
      | some v => some v
      | none => mapGet acc.2 m.code := by
  induction ms generalizing acc with
  | nil => cases hm
  | cons m' ms ih =>
    obtain ⟨pV, oV⟩ := acc
    simp only [List.map_cons, List.nodup_cons] at hnd
    rcases List.mem_cons.mp hm with he | htl
    · subst he
      rw [checkSemModules_step pO oO cb sn m ms pV oV hf]
      rw [checkSemModules_snd_frozen pO oO cb sn ms _ m.code
        (fun m'' hm'' hcc => absurd (hcc ▸ List.mem_map_of_mem (·.code) hm'') hnd.1)]
      show mapGet (match offerEntry oO sn m.code with
        | some v => mapSet oV m.code v
        | none => oV) m.code =
        match offerEntry oO sn m.code with
        | some v => some v
        | none => mapGet oV m.code
      cases hent : offerEntry oO sn m.code with
      | none => rfl
      | some v => exact mapGet_mapSet_self oV m.code v
    · have hne : m'.code ≠ m.code := fun he =>
        hnd.1 (he ▸ List.mem_map_of_mem (·.code) htl)
      by_cases hf' : m'.fluff = true
      · rw [show checkSemModules pO oO cb sn (m' :: ms) (pV, oV) =
            checkSemModules pO oO cb sn ms (pV, oV) by
          simp [checkSemModules, hf']]
        exact ih (pV, oV) htl hnd.2
      · rw [checkSemModules_step pO oO cb sn m' ms pV oV (by simpa using hf')]
        rw [ih _ htl hnd.2]
        cases hent : offerEntry oO sn m.code with
        | some v => rfl
        | none =>
          show mapGet (match offerEntry oO sn m'.code with
            | some v => mapSet oV m'.code v
            | none => oV) m.code = mapGet oV m.code
          cases hent' : offerEntry oO sn m'.code with
          | none => rfl
          | some w => exact mapGet_mapSet_ne oV m'.code m.code w (Ne.symm hne)

theorem checkSems_fst_frozen (pO : PrereqOracle) (oO : OfferOracle)
    (years : List AcademicYear) (staged : List StagedModule) (yearNum : Nat)
    (ss : List Semester) (acc : Violations) (c : String)
    (h : ∀ s ∈ ss, ∀ m ∈ s.modules, m.code = c → m.fluff = true ∨
      prereqEntry pO (completedBefore years staged (semOrder yearNum s)) c = none) :
    mapGet (checkSems pO oO years staged yearNum ss acc).1 c = mapGet acc.1 c := by
  induction ss generalizing acc with
  | nil => rfl
  | cons s ss ih =>
    rw [show checkSems pO oO years staged yearNum (s :: ss) acc =
        checkSems pO oO years staged yearNum ss
          (checkSemModules pO oO (completedBefore years staged (semOrder yearNum s))
            (semNumOf s) s.modules acc) by simp [checkSems]]
    rw [ih _ fun s' hs' => h s' (List.mem_cons_of_mem _ hs')]
    exact checkSemModules_fst_frozen pO oO _ _ _ acc c (h s (by simp))

theorem checkSems_snd_frozen (pO : PrereqOracle) (oO : OfferOracle)
    (years : List AcademicYear) (staged : List StagedModule) (yearNum : Nat)
    (ss : List Semester) (acc : Violations) (c : String)
    (h : ∀ s ∈ ss, ∀ m ∈ s.modules, m.code = c → m.fluff = true ∨
      offerEntry oO (semNumOf s) c = none) :
    mapGet (checkSems pO oO years staged yearNum ss acc).2 c = mapGet acc.2 c := by
  induction ss generalizing acc with
  | nil => rfl
  | cons s ss ih =>
    rw [show checkSems pO oO years staged yearNum (s :: ss) acc =
        checkSems pO oO years staged yearNum ss
          (checkSemModules pO oO (completedBefore years staged (semOrder yearNum s))
            (semNumOf s) s.modules acc) by simp [checkSems]]
    rw [ih _ fun s' hs' => h s' (List.mem_cons_of_mem _ hs')]
    exact checkSemModules_snd_frozen pO oO _ _ _ acc c (h s (by simp))

theorem checkSems_fst_lookup (pO : PrereqOracle) (oO : OfferOracle)
    (years : List AcademicYear) (staged : List StagedModule) (yearNum : Nat)
    (ss : List Semester) (acc : Violations) (s : Semester) (m : Module)
    (hs : s ∈ ss) (hm : m ∈ s.modules) (hf : m.fluff = false)
    (hnd : (ss.flatMap fun s => s.modules.map (·.code)).Nodup) :
    mapGet (checkSems pO oO years staged yearNum ss acc).1 m.code =
      match prereqEntry pO (completedBefore years staged (semOrder yearNum s)) m.code with
      | some v => some v
      | none => mapGet acc.1 m.code := by
  induction ss generalizing acc with
  | nil => cases hs
  | cons s' ss ih =>
    simp only [List.flatMap_cons, List.nodup_append] at hnd
    rw [show checkSems pO oO years staged yearNum (s' :: ss) acc =
        checkSems pO oO years staged yearNum ss
          (checkSemModules pO oO (completedBefore years staged (semOrder yearNum s'))
            (semNumOf s') s'.modules acc) by simp [checkSems]]
    rcases List.mem_cons.mp hs with he | htl
    · subst he
      rw [checkSems_fst_frozen pO oO years staged yearNum ss _ m.code
        (fun s'' hs'' m'' hm'' hcc => absurd
          (List.mem_flatMap.mpr ⟨s'', hs'', hcc ▸ List.mem_map_of_mem (·.code) hm''⟩)
          (hnd.2.2 (List.mem_map_of_mem (·.code) hm)))]
      exact checkSemModules_fst_lookup pO oO _ _ _ acc m hm hf hnd.1
    · have hnotin : ∀ m' ∈ s'.modules, m'.code ≠ m.code := fun m' hm' he =>
        hnd.2.2 (he ▸ List.mem_map_of_mem (·.code) hm')
          (List.mem_flatMap.mpr ⟨s, htl, List.mem_map_of_mem (·.code) hm⟩)
      rw [ih _ htl hnd.2.1]
      cases hent : prereqEntry pO
          (completedBefore years staged (semOrder yearNum s)) m.code with
      | some v => rfl
      | none =>
        exact checkSemModules_fst_frozen pO oO _ _ s'.modules acc m.code
          (fun m' hm' hcc => absurd hcc (hnotin m' hm'))

theorem checkSems_snd_lookup (pO : PrereqOracle) (oO : OfferOracle)
    (years : List AcademicYear) (staged : List StagedModule) (yearNum : Nat)
    (ss : List Semester) (acc : Violations) (s : Semester) (m : Module)
    (hs : s ∈ ss) (hm : m ∈ s.modules) (hf : m.fluff = false)
    (hnd : (ss.flatMap fun s => s.modules.map (·.code)).Nodup) :
    mapGet (checkSems pO oO years staged yearNum ss acc).2 m.code =
      match offerEntry oO (semNumOf s) m.code with
      | some v => some v
      | none => mapGet acc.2 m.code := by
  induction ss generalizing acc with
  | nil => cases hs
  | cons s' ss ih =>
    simp only [List.flatMap_cons, List.nodup_append] at hnd
    rw [show checkSems pO oO years staged yearNum (s' :: ss) acc =
        checkSems pO oO years staged yearNum ss
          (checkSemModules pO oO (completedBefore years staged (semOrder yearNum s'))
            (semNumOf s') s'.modules acc) by simp [checkSems]]
    rcases List.mem_cons.mp hs with he | htl
    · subst he
      rw [checkSems_snd_frozen pO oO years staged yearNum ss _ m.code
        (fun s'' hs'' m'' hm'' hcc => absurd
          (List.mem_flatMap.mpr ⟨s'', hs'', hcc ▸ List.mem_map_of_mem (·.code) hm''⟩)
          (hnd.2.2 (List.mem_map_of_mem (·.code) hm)))]
      exact checkSemModules_snd_lookup pO oO _ _ _ acc m hm hf hnd.1
    · have hnotin : ∀ m' ∈ s'.modules, m'.code ≠ m.code := fun m' hm' he =>
        hnd.2.2 (he ▸ List.mem_map_of_mem (·.code) hm')
          (List.mem_flatMap.mpr ⟨s, htl, List.mem_map_of_mem (·.code) hm⟩)
      rw [ih _ htl hnd.2.1]
      cases hent : offerEntry oO (semNumOf s) m.code with
      | some v => rfl
      | none =>
        exact checkSemModules_snd_frozen pO oO _ _ s'.modules acc m.code
          (fun m' hm' hcc => absurd hcc (hnotin m' hm'))

theorem checkYears_fst_frozen (pO : PrereqOracle) (oO : OfferOracle)
    (years : List AcademicYear) (staged : List StagedModule)
    (ys : List AcademicYear) (acc : Violations) (c : String)
    (h : ∀ y ∈ ys, ∀ s ∈ y.semesters, ∀ m ∈ s.modules, m.code = c → m.fluff = true ∨
      prereqEntry pO (completedBefore years staged (semOrder y.year s)) c = none) :
    mapGet (checkYears pO oO years staged ys acc).1 c = mapGet acc.1 c := by
  induction ys generalizing acc with
  | nil => rfl
  | cons y ys ih =>
    rw [show checkYears pO oO years staged (y :: ys) acc =
        checkYears pO oO years staged ys
          (checkSems pO oO years staged y.year y.semesters acc) by simp [checkYears]]
    rw [ih _ fun y' hy' => h y' (List.mem_cons_of_mem _ hy')]
    exact checkSems_fst_frozen pO oO years staged y.year y.semesters acc c (h y (by simp))

theorem checkYears_snd_frozen (pO : PrereqOracle) (oO : OfferOracle)
    (years : List AcademicYear) (staged : List StagedModule)
    (ys : List AcademicYear) (acc : Violations) (c : String)
    (h : ∀ y ∈ ys, ∀ s ∈ y.semesters, ∀ m ∈ s.modules, m.code = c → m.fluff = true ∨
      offerEntry oO (semNumOf s) c = none) :
    mapGet (checkYears pO oO years staged ys acc).2 c = mapGet acc.2 c := by
  induction ys generalizing acc with
  | nil => rfl
  | cons y ys ih =>
    rw [show checkYears pO oO years staged (y :: ys) acc =
        checkYears pO oO years staged ys
          (checkSems pO oO years staged y.year y.semesters acc) by simp [checkYears]]
    rw [ih _ fun y' hy' => h y' (List.mem_cons_of_mem _ hy')]
    exact checkSems_snd_frozen pO oO years staged y.year y.semesters acc c (h y (by simp))

theorem checkYears_fst_lookup (pO : PrereqOracle) (oO : OfferOracle)
    (years : List AcademicYear) (staged : List StagedModule)
    (ys : List AcademicYear) (acc : Violations)
    (y : AcademicYear) (s : Semester) (m : Module)
    (hy : y ∈ ys) (hs : s ∈ y.semesters) (hm : m ∈ s.modules) (hf : m.fluff = false)
    (hnd : (planCodes ys).Nodup) :
    mapGet (checkYears pO oO years staged ys acc).1 m.code =
      match prereqEntry pO (completedBefore years staged (semOrder y.year s)) m.code with
      | some v => some v
      | none => mapGet acc.1 m.code := by
  induction ys generalizing acc with
  | nil => cases hy
  | cons y' ys ih =>
    simp only [planCodes, List.flatMap_cons, List.nodup_append] at hnd
    rw [show checkYears pO oO years staged (y' :: ys) acc =
        checkYears pO oO years staged ys
          (checkSems pO oO years staged y'.year y'.semesters acc) by simp [checkYears]]
    have hmem : m.code ∈ y.semesters.flatMap fun s => s.modules.map (·.code) :=
      List.mem_flatMap.mpr ⟨s, hs, List.mem_map_of_mem (·.code) hm⟩
    rcases List.mem_cons.mp hy with he | htl
    · subst he
      rw [checkYears_fst_frozen pO oO years staged ys _ m.code
        (fun y'' hy'' s'' hs'' m'' hm'' hcc => absurd
          (List.mem_flatMap.mpr ⟨y'', hy'',
            List.mem_flatMap.mpr ⟨s'', hs'', hcc ▸ List.mem_map_of_mem (·.code) hm''⟩⟩)
          (hnd.2.2 hmem))]
      exact checkSems_fst_lookup pO oO years staged y.year y.semesters acc s m hs hm hf hnd.1
    · have hnotin : ∀ s' ∈ y'.semesters, ∀ m' ∈ s'.modules, m'.code ≠ m.code :=
        fun s' hs' m' hm' he =>
          hnd.2.2 (List.mem_flatMap.mpr ⟨s', hs', he ▸ List.mem_map_of_mem (·.code) hm'⟩)
            (List.mem_flatMap.mpr ⟨y, htl, hmem⟩)
      rw [ih _ htl hnd.2.1]
      cases hent : prereqEntry pO
          (completedBefore years staged (semOrder y.year s)) m.code with
      | some v => rfl
      | none =>
        exact checkSems_fst_frozen pO oO years staged y'.year y'.semesters acc m.code
          (fun s' hs' m' hm' hcc => absurd hcc (hnotin s' hs' m' hm'))

theorem checkYears_snd_lookup (pO : PrereqOracle) (oO : OfferOracle)
    (years : List AcademicYear) (staged : List StagedModule)
    (ys : List AcademicYear) (acc : Violations)
    (y : AcademicYear) (s : Semester) (m : Module)
    (hy : y ∈ ys) (hs : s ∈ y.semesters) (hm : m ∈ s.modules) (hf : m.fluff = false)
    (hnd : (planCodes ys).Nodup) :
    mapGet (checkYears pO oO years staged ys acc).2 m.code =
      match offerEntry oO (semNumOf s) m.code with
      | some v => some v
      | none => mapGet acc.2 m.code := by
  induction ys generalizing acc with
  | nil => cases hy
  | cons y' ys ih =>
    simp only [planCodes, List.flatMap_cons, List.nodup_append] at hnd
    rw [show checkYears pO oO years staged (y' :: ys) acc =
        checkYears pO oO years staged ys
          (checkSems pO oO years staged y'.year y'.semesters acc) by simp [checkYears]]
    have hmem : m.code ∈ y.semesters.flatMap fun s => s.modules.map (·.code) :=
      List.mem_flatMap.mpr ⟨s, hs, List.mem_map_of_mem (·.code) hm⟩
    rcases List.mem_cons.mp hy with he | htl
    · subst he
      rw [checkYears_snd_frozen pO oO years staged ys _ m.code
        (fun y'' hy'' s'' hs'' m'' hm'' hcc => absurd
          (List.mem_flatMap.mpr ⟨y'', hy'',
            List.mem_flatMap.mpr ⟨s'', hs'', hcc ▸ List.mem_map_of_mem (·.code) hm''⟩⟩)
          (hnd.2.2 hmem))]
      exact checkSems_snd_lookup pO oO years staged y.year y.semesters acc s m hs hm hf hnd.1
    · have hnotin : ∀ s' ∈ y'.semesters, ∀ m' ∈ s'.modules, m'.code ≠ m.code :=
        fun s' hs' m' hm' he =>
          hnd.2.2 (List.mem_flatMap.mpr ⟨s', hs', he ▸ List.mem_map_of_mem (·.code) hm'⟩)
            (List.mem_flatMap.mpr ⟨y, htl, hmem⟩)
      rw [ih _ htl hnd.2.1]
      cases hent : offerEntry oO (semNumOf s) m.code with
      | some v => rfl
      | none =>
        exact checkSems_snd_frozen pO oO years staged y'.year y'.semesters acc m.code
          (fun s' hs' m' hm' hcc => absurd hcc (hnotin s' hs' m' hm'))

theorem checkAll_fst_lookup (years : List AcademicYear) (staged : List StagedModule)
    (pO : PrereqOracle) (oO : OfferOracle)
    (y : AcademicYear) (s : Semester) (m : Module)
    (hy : y ∈ years) (hs : s ∈ y.semesters) (hm : m ∈ s.modules) (hf : m.fluff = false)
    (hnd : (planCodes years).Nodup) :
    mapGet (checkAllConstraints years staged pO oO).1 m.code =
      prereqEntry pO (completedBefore years staged (semOrder y.year s)) m.code := by
  unfold checkAllConstraints
  rw [checkYears_fst_lookup pO oO years staged years ([], []) y s m hy hs hm hf hnd]
  cases prereqEntry pO (completedBefore years staged (semOrder y.year s)) m.code <;> rfl

theorem checkAll_snd_lookup (years : List AcademicYear) (staged : List StagedModule)
    (pO : PrereqOracle) (oO : OfferOracle)
    (y : AcademicYear) (s : Semester) (m : Module)
    (hy : y ∈ years) (hs : s ∈ y.semesters) (hm : m ∈ s.modules) (hf : m.fluff = false)
    (hnd : (planCodes years).Nodup) :
    mapGet (checkAllConstraints years staged pO oO).2 m.code =
      offerEntry oO (semNumOf s) m.code := by
  unfold checkAllConstraints
  rw [checkYears_snd_lookup pO oO years staged years ([], []) y s m hy hs hm hf hnd]
  cases offerEntry oO (semNumOf s) m.code <;> rfl

/-! ### Fluff invariance, the spec-modelled entry, and claims C1, C7, C9 -/

/-- The per-semester stats fold never reads the `fluff` flag. -/
theorem statsAddModules_fluff (f : Module → Bool) (semId cur : Nat) (ms : List Module)
    (acc : List String × Stats) :
    statsAddModules semId cur (ms.map fun m => { m with fluff := f m }) acc =
      statsAddModules semId cur ms acc := by
  induction ms generalizing acc with
  | nil => rfl
  | cons m ms ih =>
    obtain ⟨seen, st⟩ := acc
    show statsAddModules semId cur
        ({ m with fluff := f m } :: ms.map fun m => { m with fluff := f m })
        (seen, st) = _
    by_cases hc : m.code ∈ seen
    · rw [show statsAddModules semId cur
          ({ m with fluff := f m } :: ms.map fun m => { m with fluff := f m })
          (seen, st) = statsAddModules semId cur (ms.map fun m => { m with fluff := f m })
          (seen, st) by simp [statsAddModules, hc]]
      rw [show statsAddModules semId cur (m :: ms) (seen, st) =
          statsAddModules semId cur ms (seen, st) by simp [statsAddModules, hc]]
      exact ih _
    · rw [show statsAddModules semId cur
          ({ m with fluff := f m } :: ms.map fun m => { m with fluff := f m })
          (seen, st) = statsAddModules semId cur (ms.map fun m => { m with fluff := f m })
          (m.code :: seen, bucketAdd st semId cur m.credit) by
        simp [statsAddModules, hc, Module.credit]]
      rw [show statsAddModules semId cur (m :: ms) (seen, st) =
          statsAddModules semId cur ms (m.code :: seen, bucketAdd st semId cur m.credit) by
        simp [statsAddModules, hc]]
      exact ih _

/-- The per-year stats fold never reads the `fluff` flag. -/
theorem statsAddSems_fluff (f : Module → Bool) (yearNum cur : Nat) (ss : List Semester)
    (acc : List String × Stats) :
    statsAddSems yearNum cur
        (ss.map fun s => { s with modules := s.modules.map fun m => { m with fluff := f m } })
        acc =
      statsAddSems yearNum cur ss acc := by
  induction ss generalizing acc with
  | nil => rfl
  | cons s ss ih =>
    show statsAddSems yearNum cur
        ({ s with modules := s.modules.map fun m => { m with fluff := f m } } ::
          ss.map fun s => { s with modules := s.modules.map fun m => { m with fluff := f m } })
        acc = _
    rw [show statsAddSems yearNum cur
        ({ s with modules := s.modules.map fun m => { m with fluff := f m } } ::
          ss.map fun s => { s with modules := s.modules.map fun m => { m with fluff := f m } })
        acc = statsAddSems yearNum cur
          (ss.map fun s => { s with modules := s.modules.map fun m => { m with fluff := f m } })
          (statsAddModules
            (semOrder yearNum { s with modules := s.modules.map fun m => { m with fluff := f m } })
            cur (s.modules.map fun m => { m with fluff := f m }) acc) by
      simp [statsAddSems]]
    rw [show semOrder yearNum
        { s with modules := s.modules.map fun m => { m with fluff := f m } } =
        semOrder yearNum s from rfl]
    rw [statsAddModules_fluff]
    rw [show statsAddSems yearNum cur (s :: ss) acc =
        statsAddSems yearNum cur ss
          (statsAddModules (semOrder yearNum s) cur s.modules acc) by simp [statsAddSems]]
    exact ih _

/-- The whole-plan stats fold never reads the `fluff` flag. -/
theorem statsAddYears_fluff (f : Module → Bool) (cur : Nat) (years : List AcademicYear)
    (acc : List String × Stats) :
    statsAddYears cur (mapFluff f years) acc = statsAddYears cur years acc := by
  induction years generalizing acc with
  | nil => rfl
  | cons y ys ih =>
    show statsAddYears cur
        ({ y with semesters := y.semesters.map fun s =>
            { s with modules := s.modules.map fun m => { m with fluff := f m } } } ::
          mapFluff f ys) acc = _
    rw [show statsAddYears cur
        ({ y with semesters := y.semesters.map fun s =>
            { s with modules := s.modules.map fun m => { m with fluff := f m } } } ::
          mapFluff f ys) acc =
        statsAddYears cur (mapFluff f ys)
          (statsAddSems y.year cur
            (y.semesters.map fun s =>
              { s with modules := s.modules.map fun m => { m with fluff := f m } }) acc) by
      simp [statsAddYears]]
    rw [statsAddSems_fluff]
    rw [show statsAddYears cur (y :: ys) acc =
        statsAddYears cur ys (statsAddSems y.year cur y.semesters acc) by
      simp [statsAddYears]]
    exact ih _

/-- The prerequisite-map entry produced through the spec-modelled oracle:
no entry for an unknown code or a satisfied tree, otherwise the missing
leaves when there are any. -/
theorem prereqEntry_spec (cat : Catalog) (cb : List String) (c : String) :
    prereqEntry (specPrereqOracle cat) cb c =
      match cat c with
      | none => none
      | some t =>
        if satTree cb t then none
        else if missingTree cb t = [] then none else some (missingTree cb t) := by
  unfold prereqEntry specPrereqOracle
  cases cat c with
  | none => simp
  | some t =>
    by_cases hsat : satTree cb t
    · simp [hsat]
    · by_cases hmt : missingTree cb t = []
      · simp [hsat, hmt]
      · simp [hsat, hmt, List.length_pos.mpr hmt]

/-- C7: for every course code all of whose plan occurrences are flagged
fluff, the Validator records neither a prerequisite nor an offering
violation under any oracle; and the progress credit totals are invariant
under arbitrary rewriting of the fluff flags, so a fluff course's credit is
counted exactly like a non-fluff one. -/
theorem C7_fluff_no_violations_but_counted (years : List AcademicYear)
    (staged : List StagedModule) :
    (∀ (pO : PrereqOracle) (oO : OfferOracle) (c : String),
      (∀ y ∈ years, ∀ s ∈ y.semesters, ∀ m ∈ s.modules, m.code = c → m.fluff = true) →
      mapGet (checkAllConstraints years staged pO oO).1 c = none ∧
      mapGet (checkAllConstraints years staged pO oO).2 c = none) ∧
    (∀ (f : Module → Bool) (curY curS : Nat),
      progressionStats (mapFluff f years) staged curY curS =
        progressionStats years staged curY curS) := by
  constructor
  · intro pO oO c hfl
    unfold checkAllConstraints
    constructor
    · rw [checkYears_fst_frozen pO oO years staged years ([], []) c
        (fun y hy s hs m hm hcc => Or.inl (hfl y hy s hs m hm hcc))]
      rfl
    · rw [checkYears_snd_frozen pO oO years staged years ([], []) c
        (fun y hy s hs m hm hcc => Or.inl (hfl y hy s hs m hm hcc))]
      rfl
  · intro f curY curS
    unfold progressionStats
    rw [statsAddYears_fluff]

/-- C7, witness: at `fixFluff` (one fluff course `CS9999`) with oracles
that would report both violations, no violation is recorded, and clearing
the fluff flags leaves the snapshot unchanged. -/
theorem C7_witness_probe :
    ((∀ y ∈ fixFluff, ∀ s ∈ y.semesters, ∀ m ∈ s.modules,
        m.code = "CS9999" → m.fluff = true) ∧
      mapGet (checkAllConstraints fixFluff [] (fun _ _ => some ⟨false, ["CS1010"]⟩)
        (fun _ _ => some false)).1 "CS9999" = none ∧
      mapGet (checkAllConstraints fixFluff [] (fun _ _ => some ⟨false, ["CS1010"]⟩)
        (fun _ _ => some false)).2 "CS9999" = none) ∧
    progressionStats (mapFluff (fun _ => false) fixFluff) [] 1 1 =
      progressionStats fixFluff [] 1 1 :=
  ⟨⟨by decide,
    (C7_fluff_no_violations_but_counted fixFluff []).1 _ _ "CS9999" (by decide)⟩,
   (C7_fluff_no_violations_but_counted fixFluff []).2 (fun _ => false) 1 1⟩

/-- C9: when every prerequisite lookup for a code fails (the `catch`
branches of MainBoard.tsx:461,469) and every offering lookup fails, the
Validator records no violation of either kind for that code; and the
spec-modelled oracle maps an unknown catalog code to no prerequisite entry
(fail-open). -/
theorem C9_lookup_failure_fail_open (years : List AcademicYear)
    (staged : List StagedModule) (pO : PrereqOracle) (oO : OfferOracle) (c : String)
    (hp : ∀ avail, pO c avail = none)
    (ho : ∀ sn, oO c sn = none) :
    (mapGet (checkAllConstraints years staged pO oO).1 c = none ∧
     mapGet (checkAllConstraints years staged pO oO).2 c = none) ∧
    (∀ (cat : Catalog) (avail : List String), cat c = none →
      prereqEntry (specPrereqOracle cat) avail c = none) := by
  refine ⟨?_, fun cat avail hcat => by rw [prereqEntry_spec, hcat]⟩
  unfold checkAllConstraints
  constructor
  · rw [checkYears_fst_frozen pO oO years staged years ([], []) c
      (fun y hy s hs m hm hcc => Or.inr (by unfold prereqEntry; rw [hp _]))]
    rfl
  · rw [checkYears_snd_frozen pO oO years staged years ([], []) c
      (fun y hy s hs m hm hcc => Or.inr (by unfold offerEntry; rw [ho _]))]
    rfl

/-- C9, witness: failing oracles on the scenario plan record nothing for
`CS2040S`. -/
theorem C9_lookup_failure_fail_open_witness :
    ((mapGet (checkAllConstraints fixSameSem []
        (fun _ _ => none) (fun _ _ => none)).1 "CS2040S" = none ∧
      mapGet (checkAllConstraints fixSameSem []
        (fun _ _ => none) (fun _ _ => none)).2 "CS2040S" = none) ∧
     (∀ (cat : Catalog) (avail : List String), cat "CS2040S" = none →
        prereqEntry (specPrereqOracle cat) avail "CS2040S" = none)) :=
  C9_lookup_failure_fail_open fixSameSem [] (fun _ _ => none) (fun _ _ => none)
    "CS2040S" (fun _ => rfl) (fun _ => rfl)

/-- C1: for every non-fluff planned course in a duplicate-free plan whose
staged modules are all exempted, the set the Validator hands to the
prerequisite evaluation is exactly the codes placed in semesters of
strictly smaller order plus all staged (exempted) codes; a code placed
only in the course's own (same-order) semester is not in that set; and the
recorded prerequisite-map entry is exactly the spec-modelled evaluation of
the course's catalog tree against that set — the missing leaves when
unsatisfied, nothing when satisfied or unknown. -/
theorem C1_prereq_available_set (cat : Catalog) (oO : OfferOracle)
    (years : List AcademicYear) (staged : List StagedModule)
    (hnd : (planCodes years).Nodup)
    (hstaged : ∀ m ∈ staged, m.type = StagedType.exempted)
    (y : AcademicYear) (s : Semester) (m : Module)
    (hy : y ∈ years) (hs : s ∈ y.semesters) (hm : m ∈ s.modules)
    (hf : m.fluff = false) :
    (∀ c, c ∈ completedBefore years staged (semOrder y.year s) ↔
      ((∃ y' ∈ years, ∃ s' ∈ y'.semesters,
          semOrder y'.year s' < semOrder y.year s ∧ c ∈ s'.modules.map (·.code)) ∨
       c ∈ staged.map (·.code))) ∧
    (∀ p, p ∉ staged.map (·.code) →
      (∀ y' ∈ years, ∀ s' ∈ y'.semesters, semOrder y'.year s' < semOrder y.year s →
         p ∉ s'.modules.map (·.code)) →
      p ∉ completedBefore years staged (semOrder y.year s)) ∧
    mapGet (checkAllConstraints years staged (specPrereqOracle cat) oO).1 m.code =
      (match cat m.code with
       | none => none
       | some t =>
         if satTree (completedBefore years staged (semOrder y.year s)) t then none
         else if missingTree (completedBefore years staged (semOrder y.year s)) t = [] then
           none
         else some (missingTree (completedBefore years staged (semOrder y.year s)) t)) := by
  have hchar : ∀ c, c ∈ completedBefore years staged (semOrder y.year s) ↔
      ((∃ y' ∈ years, ∃ s' ∈ y'.semesters,
          semOrder y'.year s' < semOrder y.year s ∧ c ∈ s'.modules.map (·.code)) ∨
       c ∈ staged.map (·.code)) := by
    intro c
    simp only [completedBefore, List.mem_append, List.mem_flatMap]
    constructor
    · rintro (⟨y', hy', s', hs', hc⟩ | h)
      · by_cases ho : semOrder y'.year s' < semOrder y.year s
        · rw [if_pos ho] at hc
          exact Or.inl ⟨y', hy', s', hs', ho, hc⟩
        · rw [if_neg ho] at hc
          cases hc
      · exact Or.inr h
    · rintro (⟨y', hy', s', hs', ho, hc⟩ | h)
      · exact Or.inl ⟨y', hy', s', hs', by rw [if_pos ho]; exact hc⟩
      · exact Or.inr h
  refine ⟨hchar, ?_, ?_⟩
  · intro p hst hnotin hmem
    rcases (hchar p).mp hmem with ⟨y', hy', s', hs', ho, hc⟩ | h
    · exact hnotin y' hy' s' hs' ho hc
    · exact hst h
  · rw [checkAll_fst_lookup years staged (specPrereqOracle cat) oO y s m hy hs hm hf hnd]
    rw [prereqEntry_spec]

/-- C1, witness (concrete scenario 2): `CS1101S` and `CS2040S` both at
order 11 under the catalog `CS2040S ⟶ Leaf CS1101S`: the violation map
records `CS2040S ↦ [CS1101S]`. -/
theorem C1_prereq_available_set_witness :
    ((planCodes fixSameSem).Nodup ∧
     mapGet (checkAllConstraints fixSameSem [] (specPrereqOracle fixCatalog)
       (fun _ _ => some true)).1 "CS2040S" = some ["CS1101S"]) ∧
    ((∀ c, c ∈ completedBefore fixSameSem []
        (semOrder (⟨1, [mkSem 1 "Semester 1" [mkMod "CS1101S", mkMod "CS2040S"],
          mkSem 2 "Semester 2" []]⟩ : AcademicYear).year
          (mkSem 1 "Semester 1" [mkMod "CS1101S", mkMod "CS2040S"])) ↔
      ((∃ y' ∈ fixSameSem, ∃ s' ∈ y'.semesters,
          semOrder y'.year s' <
            semOrder (⟨1, [mkSem 1 "Semester 1" [mkMod "CS1101S", mkMod "CS2040S"],
              mkSem 2 "Semester 2" []]⟩ : AcademicYear).year
              (mkSem 1 "Semester 1" [mkMod "CS1101S", mkMod "CS2040S"]) ∧
          c ∈ s'.modules.map (·.code)) ∨
       c ∈ ([] : List StagedModule).map (·.code))) ∧
     (∀ p, p ∉ ([] : List StagedModule).map (·.code) →
       (∀ y' ∈ fixSameSem, ∀ s' ∈ y'.semesters,
          semOrder y'.year s' <
            semOrder (⟨1, [mkSem 1 "Semester 1" [mkMod "CS1101S", mkMod "CS2040S"],
              mkSem 2 "Semester 2" []]⟩ : AcademicYear).year
              (mkSem 1 "Semester 1" [mkMod "CS1101S", mkMod "CS2040S"]) →
          p ∉ s'.modules.map (·.code)) →
       p ∉ completedBefore fixSameSem []
         (semOrder (⟨1, [mkSem 1 "Semester 1" [mkMod "CS1101S", mkMod "CS2040S"],
           mkSem 2 "Semester 2" []]⟩ : AcademicYear).year
           (mkSem 1 "Semester 1" [mkMod "CS1101S", mkMod "CS2040S"]))) ∧
     mapGet (checkAllConstraints fixSameSem [] (specPrereqOracle fixCatalog)
       (fun _ _ => some true)).1 (mkMod "CS2040S").code =
       (match fixCatalog (mkMod "CS2040S").code with
        | none => none
        | some t =>
          if satTree (completedBefore fixSameSem []
            (semOrder (⟨1, [mkSem 1 "Semester 1" [mkMod "CS1101S", mkMod "CS2040S"],
              mkSem 2 "Semester 2" []]⟩ : AcademicYear).year
              (mkSem 1 "Semester 1" [mkMod "CS1101S", mkMod "CS2040S"]))) t then none
          else if missingTree (completedBefore fixSameSem []
            (semOrder (⟨1, [mkSem 1 "Semester 1" [mkMod "CS1101S", mkMod "CS2040S"],
              mkSem 2 "Semester 2" []]⟩ : AcademicYear).year
              (mkSem 1 "Semester 1" [mkMod "CS1101S", mkMod "CS2040S"]))) t = [] then none
          else some (missingTree (completedBefore fixSameSem []
            (semOrder (⟨1, [mkSem 1 "Semester 1" [mkMod "CS1101S", mkMod "CS2040S"],
              mkSem 2 "Semester 2" []]⟩ : AcademicYear).year
              (mkSem 1 "Semester 1" [mkMod "CS1101S", mkMod "CS2040S"]))) t))) :=
  ⟨⟨by decide, by decide⟩,
   C1_prereq_available_set fixCatalog (fun _ _ => some true) fixSameSem []
     (by decide) (by decide)
     ⟨1, [mkSem 1 "Semester 1" [mkMod "CS1101S", mkMod "CS2040S"],
          mkSem 2 "Semester 2" []]⟩
     (mkSem 1 "Semester 1" [mkMod "CS1101S", mkMod "CS2040S"])
     (mkMod "CS2040S") (by decide) (by decide) (by decide) (by decide)⟩

/-- Counting in a flatMap is the sum of per-element counts. -/
theorem count_flatMap {α β : Type} [BEq β] (g : α → List β) (l : List α) (b : β) :
    ((l.flatMap g).count b) = (l.map fun a => (g a).count b).sum := by
  induction l with
  | nil => rfl
  | cons a l ih => simp [List.count_append, ih]

/-- `planCodes` counts decompose into a per-semester sum. -/
theorem count_planCodes (years : List AcademicYear) (c : String) :
    (planCodes years).count c =
      ((years.flatMap (·.semesters)).map fun s => (s.modules.map (·.code)).count c).sum := by
  induction years with
  | nil => rfl
  | cons y ys ih =>
    have h1 : planCodes (y :: ys) =
        (y.semesters.flatMap fun s => s.modules.map (·.code)) ++ planCodes ys := by
      simp [planCodes]
    rw [h1, List.count_append, count_flatMap, ih, List.flatMap_cons, List.map_append,
      List.sum_append]

/-- Per-semester count decomposition after updating every semester in place. -/
theorem count_planCodes_mapSem (u : Semester → Semester) (years : List AcademicYear)
    (c : String) :
    (planCodes (years.map fun y => { y with semesters := y.semesters.map u })).count c =
      ((years.flatMap (·.semesters)).map fun s => ((u s).modules.map (·.code)).count c).sum := by
  induction years with
  | nil => rfl
  | cons y ys ih =>
    have h1 : planCodes ((y :: ys).map fun y => { y with semesters := y.semesters.map u }) =
        ((y.semesters.map u).flatMap fun s => s.modules.map (·.code)) ++
          planCodes (ys.map fun y => { y with semesters := y.semesters.map u }) := by
      simp [planCodes]
    rw [h1, List.count_append, count_flatMap, ih, List.flatMap_cons, List.map_append,
      List.sum_append, List.map_map]
    rfl

/-- Counting codes after the `handleDrop` removal filter: the dragged code
vanishes, every other code is untouched. -/
theorem count_map_filter_ne {α : Type} (f : α → String) (l : List α) (code c : String) :
    ((l.filter fun x => !(f x == code)).map f).count c =
      if c = code then 0 else (l.map f).count c := by
  induction l with
  | nil => simp
  | cons x l ih =>
    by_cases hx : (f x == code) = true
    · have hfx : f x = code := by simpa using hx
      rw [show (x :: l).filter (fun x => !(f x == code)) = l.filter fun x => !(f x == code) by
        simp [List.filter_cons, hx], ih]
      by_cases hc : c = code
      · simp [hc]
      · have hne : (f x == c) = false := by
          simp only [beq_eq_false_iff_ne, ne_eq]
          intro he
          exact hc (he ▸ hfx)
        simp [hc, List.count_cons, hne]
    · have hfx : (f x == code) = false := by simpa using hx
      rw [show (x :: l).filter (fun x => !(f x == code)) =
          x :: (l.filter fun x => !(f x == code)) by simp [List.filter_cons, hfx]]
      simp only [List.map_cons, List.count_cons, ih]
      have hxne : ¬ f x = code := fun he => by simp [he] at hfx
      by_cases hc : c = code
      · have hne : (f x == c) = false := by
          simp only [beq_eq_false_iff_ne, ne_eq]
          intro he
          exact hxne (hc ▸ he)
        simp [hc, hne, hxne]
      · simp [hc]

/-- Counting codes after a `spliceInsert` (insertion at an index): one more
occurrence of the inserted code, others untouched. -/
theorem count_map_spliceInsert {α : Type} (f : α → String) (i : Nat) (x : α) (l : List α)
    (c : String) :
    ((spliceInsert i x l).map f).count c =
      (l.map f).count c + if f x = c then 1 else 0 := by
  unfold spliceInsert
  rw [List.map_append, List.map_cons, List.count_append, List.count_cons]
  have : (l.map f).count c = ((l.take i).map f).count c + ((l.drop i).map f).count c := by
    rw [← List.count_append, ← List.map_append, List.take_append_drop]
  rw [this]
  by_cases hfx : f x = c
  · simp [hfx]
    omega
  · have hb : (f x == c) = false := by
      simp only [beq_eq_false_iff_ne, ne_eq]
      exact hfx
    simp [hfx, hb]

/-- Counting codes after appending one module at the end. -/
theorem count_map_concat {α : Type} (f : α → String) (x : α) (l : List α) (c : String) :
    ((l ++ [x]).map f).count c = (l.map f).count c + if f x = c then 1 else 0 := by
  rw [List.map_append, List.count_append]
  simp only [List.map_cons, List.map_nil, List.count_cons, List.count_nil]
  by_cases hfx : f x = c
  · simp [hfx]
  · have hb : (f x == c) = false := by
      simp only [beq_eq_false_iff_ne, ne_eq]
      exact hfx
    simp [hfx, hb]

/-- Summing the indicator of the id being t over a semester list counts the
occurrences of the id `t`. -/
theorem sum_ite_id_count (L : List Semester) (t : Nat) :
    (L.map fun s => if s.id = t then 1 else 0).sum = (L.map (·.id)).count t := by
  induction L with
  | nil => rfl
  | cons s L ih =>
    simp only [List.map_cons, List.sum_cons, List.count_cons, ih]
    by_cases hs : s.id = t
    · simp [hs]
      omega
    · have hb : (s.id == t) = false := by
        simp only [beq_eq_false_iff_ne, ne_eq]
        exact hs
      simp [hs, hb]

/-- `spliceInsert` produces a permutation of consing the element. -/
theorem spliceInsert_perm {α : Type} (i : Nat) (x : α) (l : List α) :
    (spliceInsert i x l).Perm (x :: l) := by
  unfold spliceInsert
  have h : (l.take i ++ x :: l.drop i).Perm (x :: (l.take i ++ l.drop i)) :=
    List.perm_middle
  rw [List.take_append_drop] at h
  exact h

/-- Reordering within a semester (remove the dragged module, splice it back
in) permutes the module list (MainBoard.tsx:652-668). -/
theorem reorderModules_perm (code : String) (idx : Nat) (l : List Module) :
    (reorderModules code idx l).Perm l := by
  unfold reorderModules
  cases hfi : l.findIdx? (fun m => m.code == code) with
  | none => exact List.Perm.refl l
  | some ci =>
    by_cases hci : ci = idx
    · simp only [hci, if_true]
      exact List.Perm.refl l
    · simp only [hci, if_false]
      cases hget : l.get? ci with
      | none => exact List.Perm.refl l
      | some moved =>
        rcases List.get?_eq_some.mp hget with ⟨hlt, hgeteq⟩
        have hdrop : l.drop ci = moved :: l.drop (ci + 1) := by
          rw [List.drop_eq_getElem_cons hlt]
          exact congrArg (· :: l.drop (ci + 1)) hgeteq
        refine List.Perm.trans (spliceInsert_perm _ _ _) ?_
        rw [List.eraseIdx_eq_take_drop_succ]
        have h2 : (l.take ci ++ moved :: l.drop (ci + 1)).Perm
            (moved :: (l.take ci ++ l.drop (ci + 1))) := List.perm_middle
        refine List.Perm.trans h2.symm ?_
        rw [← hdrop, List.take_append_drop]

/-- `handleDrop` in the same-semester branch with no index leaves the state
unchanged. -/
theorem handleDrop_reorder_none (years : List AcademicYear) (staged : List StagedModule)
    (drag : DragState) (targetSemId : Nat)
    (h : (drag.source == DragSource.semester && drag.sourceId == some targetSemId) = true) :
    handleDrop years staged drag targetSemId none = (years, staged, .reordered) := by
  unfold handleDrop
  rw [if_pos h]

/-- `handleDrop` in the same-semester branch with an index reorders the
target semester's modules in place. -/
theorem handleDrop_reorder_some (years : List AcademicYear) (staged : List StagedModule)
    (drag : DragState) (targetSemId : Nat) (idx : Nat)
    (h : (drag.source == DragSource.semester && drag.sourceId == some targetSemId) = true) :
    handleDrop years staged drag targetSemId (some idx) =
      (years.map fun y =>
        { y with semesters := y.semesters.map fun s =>
            if s.id == targetSemId then
              { s with modules := reorderModules drag.code idx s.modules }
            else s },
       staged, .reordered) := by
  unfold handleDrop
  rw [if_pos h]

/-- `handleDrop` in the accepted placement branch: remove the dragged code
from its source, insert it into the target semester. -/
theorem handleDrop_place (years : List AcademicYear) (staged : List StagedModule)
    (drag : DragState) (targetSemId : Nat) (insertAtIndex : Option Nat)
    (hnr : (drag.source == DragSource.semester && drag.sourceId == some targetSemId) = false)
    (hrej : ((years.any fun y => y.semesters.any fun s => s.id == targetSemId) &&
      (years.any fun y => y.semesters.any fun s =>
        if drag.source == DragSource.semester && drag.sourceId == some s.id then false
        else s.modules.any fun m => m.code == drag.code)) = false) :
    handleDrop years staged drag targetSemId insertAtIndex =
      (years.map fun y =>
        { y with semesters := y.semesters.map fun s =>
            if drag.source == DragSource.semester && drag.sourceId == some s.id then
              { s with modules := s.modules.filter (fun m => !(m.code == drag.code)),
                       units := s.units - 4 }
            else if s.id == targetSemId then
              if s.modules.any (fun m => m.code == drag.code) then s
              else
                { s with
                    modules :=
                      match insertAtIndex with
                      | some idx =>
                        spliceInsert idx
                          { code := drag.code, title := drag.code, units := some 4,
                            fluff := false } s.modules
                      | none =>
                        s.modules ++
                          [{ code := drag.code, title := drag.code, units := some 4,
                             fluff := false }],
                    units := s.units + 4 }
            else s },
       (if drag.source == DragSource.staged then
          staged.filter (fun m => !(m.code == drag.code))
        else staged),
       .applied) := by
  unfold handleDrop
  rw [if_neg (by rw [hnr]; decide)]
  simp only []
  rw [if_neg (by rw [hrej]; decide)]

/-- `handleDrop` in the duplicate-rejection branch leaves the plan and the
staged list unchanged. -/
theorem handleDrop_reject_eq (years : List AcademicYear) (staged : List StagedModule)
    (drag : DragState) (targetSemId : Nat) (insertAtIndex : Option Nat)
    (hnr : (drag.source == DragSource.semester && drag.sourceId == some targetSemId) = false)
    (hrej : ((years.any fun y => y.semesters.any fun s => s.id == targetSemId) &&
      (years.any fun y => y.semesters.any fun s =>
        if drag.source == DragSource.semester && drag.sourceId == some s.id then false
        else s.modules.any fun m => m.code == drag.code)) = true) :
    handleDrop years staged drag targetSemId insertAtIndex =
      (years, staged,
       .rejectedDuplicate (drag.code ++ " already exists in your study plan")) := by
  unfold handleDrop
  rw [if_neg (by rw [hnr]; decide)]
  simp only []
  rw [if_pos hrej]

/-- C4, amended: drag-and-drop placement (`handleDrop`, MainBoard.tsx:642-760)
preserves the at-most-once invariant across Plan ∪ Exempted, for every drag
whose source is consistent (a semester-sourced drag's code is indeed in the
source semester) and when semester ids are distinct.  The claim's other
accepted mutation, adding an exempted course, breaks the invariant — see the
counterexample. -/
theorem C4_drop_preserves_uniqueness (years : List AcademicYear)
    (staged : List StagedModule) (drag : DragState) (targetSemId : Nat)
    (insertAtIndex : Option Nat)
    (hinv : uniqueInvariant years staged)
    (hids : ((years.flatMap (·.semesters)).map (·.id)).Nodup)
    (hdrag : drag.source = DragSource.semester →
      ∃ sid, drag.sourceId = some sid ∧ ∃ y ∈ years, ∃ s ∈ y.semesters, s.id = sid ∧
        drag.code ∈ s.modules.map (·.code)) :
    uniqueInvariant (handleDrop years staged drag targetSemId insertAtIndex).1
      (handleDrop years staged drag targetSemId insertAtIndex).2.1 := by
  have hcount : ∀ c, (planCodes years).count c + (staged.map (·.code)).count c ≤ 1 := by
    intro c
    have h := List.nodup_iff_count_le_one.mp
      (show (planCodes years ++ staged.map (·.code)).Nodup from hinv) c
    rwa [List.count_append] at h
  by_cases hreo : (drag.source == DragSource.semester &&
      drag.sourceId == some targetSemId) = true
  · cases insertAtIndex with
    | none =>
      rw [handleDrop_reorder_none years staged drag targetSemId hreo]
      exact hinv
    | some idx =>
      rw [handleDrop_reorder_some years staged drag targetSemId idx hreo]
      show ((planCodes (years.map fun y =>
          { y with semesters := y.semesters.map fun s =>
              if s.id == targetSemId then
                { s with modules := reorderModules drag.code idx s.modules }
              else s })) ++ staged.map (·.code)).Nodup
      rw [List.nodup_iff_count_le_one]
      intro c
      rw [List.count_append, count_planCodes_mapSem]
      have hsem : ∀ s : Semester,
          (((if s.id == targetSemId then
              { s with modules := reorderModules drag.code idx s.modules }
            else s).modules.map (·.code)).count c) =
            (s.modules.map (·.code)).count c := by
        intro s
        by_cases hb : (s.id == targetSemId) = true
        · rw [if_pos hb]
          exact ((reorderModules_perm drag.code idx s.modules).map (·.code)).count_eq c
        · rw [if_neg hb]
      rw [List.map_congr_left fun s _ => hsem s, ← count_planCodes]
      exact hcount c
  · have hnr : (drag.source == DragSource.semester &&
        drag.sourceId == some targetSemId) = false := by simpa using hreo
    by_cases hrej : ((years.any fun y => y.semesters.any fun s => s.id == targetSemId) &&
        (years.any fun y => y.semesters.any fun s =>
          if drag.source == DragSource.semester && drag.sourceId == some s.id then false
          else s.modules.any fun m => m.code == drag.code)) = true
    · rw [handleDrop_reject_eq years staged drag targetSemId insertAtIndex hnr hrej]
      exact hinv
    · have hrej' : ((years.any fun y => y.semesters.any fun s => s.id == targetSemId) &&
          (years.any fun y => y.semesters.any fun s =>
            if drag.source == DragSource.semester && drag.sourceId == some s.id then false
            else s.modules.any fun m => m.code == drag.code)) = false := by
        simpa using hrej
      rw [handleDrop_place years staged drag targetSemId insertAtIndex hnr hrej']
      show ((planCodes (years.map fun y =>
          { y with semesters := y.semesters.map fun s =>
              if drag.source == DragSource.semester && drag.sourceId == some s.id then
                { s with modules := s.modules.filter (fun m => !(m.code == drag.code)),
                         units := s.units - 4 }
              else if s.id == targetSemId then
                if s.modules.any (fun m => m.code == drag.code) then s
                else
                  { s with
                      modules :=
                        match insertAtIndex with
                        | some idx =>
                          spliceInsert idx
                            { code := drag.code, title := drag.code, units := some 4,
                              fluff := false } s.modules
                        | none =>
                          s.modules ++
                            [{ code := drag.code, title := drag.code, units := some 4,
                               fluff := false }],
                      units := s.units + 4 }
              else s })) ++
        ((if drag.source == DragSource.staged then
            staged.filter (fun m => !(m.code == drag.code))
          else staged).map (·.code))).Nodup
      rw [List.nodup_iff_count_le_one]
      intro c
      rw [List.count_append, count_planCodes_mapSem]
      by_cases hc : c = drag.code
      case neg =>
        have hsem : ∀ s : Semester,
            (((if drag.source == DragSource.semester && drag.sourceId == some s.id then
                { s with modules := s.modules.filter (fun m => !(m.code == drag.code)),
                         units := s.units - 4 }
              else if s.id == targetSemId then
                if s.modules.any (fun m => m.code == drag.code) then s
                else
                  { s with
                      modules :=
                        match insertAtIndex with
                        | some idx =>
                          spliceInsert idx
                            { code := drag.code, title := drag.code, units := some 4,
                              fluff := false } s.modules
                        | none =>
                          s.modules ++
                            [{ code := drag.code, title := drag.code, units := some 4,
                               fluff := false }],
                      units := s.units + 4 }
              else s).modules.map (·.code)).count c) =
              (s.modules.map (·.code)).count c := by
          intro s
          by_cases hA : (drag.source == DragSource.semester &&
              drag.sourceId == some s.id) = true
          · rw [if_pos hA]
            show ((s.modules.filter fun m => !(m.code == drag.code)).map (·.code)).count c = _
            rw [count_map_filter_ne, if_neg hc]
          · rw [if_neg hA]
            by_cases hB : (s.id == targetSemId) = true
            · rw [if_pos hB]
              by_cases hct : (s.modules.any fun m => m.code == drag.code) = true
              · rw [if_pos hct]
              · rw [if_neg hct]
                cases insertAtIndex with
                | some idx =>
                  dsimp only
                  rw [count_map_spliceInsert, if_neg (fun he => hc he.symm), Nat.add_zero]
                | none =>
                  dsimp only
                  rw [count_map_concat, if_neg (fun he => hc he.symm), Nat.add_zero]
            · rw [if_neg hB]
        rw [List.map_congr_left fun s _ => hsem s, ← count_planCodes]
        have hstg : ((if drag.source == DragSource.staged then
            staged.filter (fun m => !(m.code == drag.code))
          else staged).map (·.code)).count c ≤ (staged.map (·.code)).count c := by
          by_cases hsrc : (drag.source == DragSource.staged) = true
          · rw [if_pos hsrc, count_map_filter_ne, if_neg hc]
          · rw [if_neg hsrc]
        have := hcount c
        omega
      case pos =>
        subst hc
        have hplansum :
            (List.map (fun s =>
              List.count drag.code (List.map (fun x => x.code)
                (if drag.source == DragSource.semester && drag.sourceId == some s.id then
                  { s with modules := s.modules.filter (fun m => !(m.code == drag.code)),
                           units := s.units - 4 }
                else if s.id == targetSemId then
                  if s.modules.any (fun m => m.code == drag.code) then s
                  else
                    { s with
                        modules :=
                          match insertAtIndex with
                          | some idx =>
                            spliceInsert idx
                              { code := drag.code, title := drag.code, units := some 4,
                                fluff := false } s.modules
                          | none =>
                            s.modules ++
                              [{ code := drag.code, title := drag.code, units := some 4,
                                 fluff := false }],
                        units := s.units + 4 }
                else s).modules))
              (years.flatMap fun x => x.semesters)).sum ≤ 1 := by
          by_cases hte : (years.any fun y =>
              y.semesters.any fun s => s.id == targetSemId) = true
          · have hme : (years.any fun y => y.semesters.any fun s =>
                if drag.source == DragSource.semester && drag.sourceId == some s.id then
                  false
                else s.modules.any fun m => m.code == drag.code) = false := by
              have h := hrej'
              rw [hte] at h
              simpa using h
            rw [List.any_eq_false] at hme
            have hnoc : ∀ s ∈ years.flatMap (·.semesters),
                ¬(drag.source == DragSource.semester &&
                  drag.sourceId == some s.id) = true →
                (s.modules.map (·.code)).count drag.code = 0 := by
              intro s hsL hA
              rcases List.mem_flatMap.mp hsL with ⟨y, hy, hs⟩
              have h1 := hme y hy
              rw [Bool.not_eq_true, List.any_eq_false] at h1
              have h2 := h1 s hs
              rw [if_neg hA, Bool.not_eq_true, List.any_eq_false] at h2
              rw [List.count_eq_zero]
              intro hmem
              rcases List.mem_map.mp hmem with ⟨m, hm, he⟩
              exact h2 m hm (by simpa using he)
            have hpoint : ∀ s ∈ years.flatMap (·.semesters),
                (((if drag.source == DragSource.semester &&
                    drag.sourceId == some s.id then
                    { s with modules := s.modules.filter (fun m => !(m.code == drag.code)),
                             units := s.units - 4 }
                  else if s.id == targetSemId then
                    if s.modules.any (fun m => m.code == drag.code) then s
                    else
                      { s with
                          modules :=
                            match insertAtIndex with
                            | some idx =>
                              spliceInsert idx
                                { code := drag.code, title := drag.code, units := some 4,
                                  fluff := false } s.modules
                            | none =>
                              s.modules ++
                                [{ code := drag.code, title := drag.code, units := some 4,
                                   fluff := false }],
                          units := s.units + 4 }
                  else s).modules.map (·.code)).count drag.code) ≤
                (if s.id = targetSemId then 1 else 0) := by
              intro s hsL
              by_cases hA : (drag.source == DragSource.semester &&
                  drag.sourceId == some s.id) = true
              · rw [if_pos hA]
                show ((s.modules.filter fun m =>
                    !(m.code == drag.code)).map (·.code)).count drag.code ≤ _
                rw [count_map_filter_ne, if_pos rfl]
                exact Nat.zero_le _
              · rw [if_neg hA]
                have h0 := hnoc s hsL hA
                by_cases hB : (s.id == targetSemId) = true
                · rw [if_pos hB]
                  have hnm := List.count_eq_zero.mp h0
                  have hct : (s.modules.any fun m => m.code == drag.code) = false := by
                    rw [List.any_eq_false]
                    intro m hm hbe
                    exact hnm ((by simpa using hbe : m.code = drag.code) ▸
                      List.mem_map_of_mem (·.code) hm)
                  rw [if_neg (ne_true_of_eq_false hct)]
                  rw [if_pos (by simpa using hB)]
                  cases insertAtIndex with
                  | some idx =>
                    dsimp only
                    rw [count_map_spliceInsert, if_pos rfl, h0]
                  | none =>
                    dsimp only
                    rw [count_map_concat, if_pos rfl, h0]
                · rw [if_neg hB]
                  rw [h0]
                  exact Nat.zero_le _
            refine le_trans (List.sum_le_sum hpoint) ?_
            rw [sum_ite_id_count]
            exact List.nodup_iff_count_le_one.mp hids targetSemId
          · have hte' : (years.any fun y =>
                y.semesters.any fun s => s.id == targetSemId) = false := by
              simpa using hte
            rw [List.any_eq_false] at hte'
            have hnotB : ∀ s ∈ years.flatMap (·.semesters),
                (s.id == targetSemId) = false := by
              intro s hsL
              rcases List.mem_flatMap.mp hsL with ⟨y, hy, hs⟩
              have h1 := hte' y hy
              rw [Bool.not_eq_true, List.any_eq_false] at h1
              simpa using h1 s hs
            have hpoint : ∀ s ∈ years.flatMap (·.semesters),
                (((if drag.source == DragSource.semester &&
                    drag.sourceId == some s.id then
                    { s with modules := s.modules.filter (fun m => !(m.code == drag.code)),
                             units := s.units - 4 }
                  else if s.id == targetSemId then
                    if s.modules.any (fun m => m.code == drag.code) then s
                    else
                      { s with
                          modules :=
                            match insertAtIndex with
                            | some idx =>
                              spliceInsert idx
                                { code := drag.code, title := drag.code, units := some 4,
                                  fluff := false } s.modules
                            | none =>
                              s.modules ++
                                [{ code := drag.code, title := drag.code, units := some 4,
                                   fluff := false }],
                          units := s.units + 4 }
                  else s).modules.map (·.code)).count drag.code) ≤
                (s.modules.map (·.code)).count drag.code := by
              intro s hsL
              by_cases hA : (drag.source == DragSource.semester &&
                  drag.sourceId == some s.id) = true
              · rw [if_pos hA]
                show ((s.modules.filter fun m =>
                    !(m.code == drag.code)).map (·.code)).count drag.code ≤ _
                rw [count_map_filter_ne, if_pos rfl]
                exact Nat.zero_le _
              · rw [if_neg hA, if_neg (ne_true_of_eq_false (hnotB s hsL))]
            refine le_trans (List.sum_le_sum hpoint) ?_
            rw [← count_planCodes]
            have := hcount drag.code
            omega
        by_cases hsrc : (drag.source == DragSource.staged) = true
        · rw [if_pos hsrc, count_map_filter_ne, if_pos rfl]
          omega
        · rw [if_neg hsrc]
          have hsem2 : drag.source = DragSource.semester := by
            cases hds : drag.source with
            | staged => rw [hds] at hsrc; exact (hsrc rfl).elim
            | semester => rfl
          obtain ⟨sid, hsid, y, hy, s, hs, hsidEq, hcmem⟩ := hdrag hsem2
          have hplanpos : 0 < (planCodes years).count drag.code := by
            refine List.count_pos_iff.mpr ?_
            unfold planCodes
            exact List.mem_flatMap.mpr ⟨y, hy, List.mem_flatMap.mpr ⟨s, hs, hcmem⟩⟩
          have := hcount drag.code
          omega

/-- C4, witness: the drop-preservation theorem at the concrete `fixA` plan,
dropping a fresh staged code into semester 2. -/
theorem C4_drop_preserves_uniqueness_witness :
    uniqueInvariant fixA [] ∧
    uniqueInvariant
      (handleDrop fixA [] ⟨"CS2030", DragSource.staged, none⟩ 2 none).1
      (handleDrop fixA [] ⟨"CS2030", DragSource.staged, none⟩ 2 none).2.1 :=
  ⟨by unfold uniqueInvariant; decide,
   C4_drop_preserves_uniqueness fixA [] ⟨"CS2030", DragSource.staged, none⟩ 2 none
     (by unfold uniqueInvariant; decide) (by decide)
     (fun h => nomatch h)⟩

end PlanNUS
